import Mathlib

/-
Verification development for the bridgestrap bridge-testing service.

We give a shallow embedding of the parts of the code that the claims
concern:

* `events.go` — the per-bridge `TorEventState` state machine that parses
  tor's asynchronous `ORCONN` and `NEWDESC` control-port events;
* `cache.go` — the `TestCache` result cache keyed by a bridge's
  `addr:port`, with TTL pruning and gob (de)serialisation;
* `handlers.go` — `testBridgeLines`, which serves cached verdicts and
  dispatches the remaining lines to the tor dispatcher.

Go strings are modelled as `List Char`; the bytes that occur in event
lines and bridge lines are ASCII, where byte-wise and character-wise
processing agree.  Go's `regexp` package implements leftmost-first
(Perl-style) matching; the five concrete patterns used by the code only
combine literals, character classes, greedy stars/repetitions of a
character class, and capturing groups of a character class, so we embed
a small backtracking matcher covering exactly those constructs with
leftmost-first semantics.
-/

/-- Shorthand for the model of a Go string. -/
abbrev S := List Char

/-- Character class `[^ ]` used by `([^ ]*)` in `OrConnFields`. -/
def nspc (c : Char) : Bool := c != ' '

/-- Character class `.` (any char except newline; Go regexp default). -/
def dotc (c : Char) : Bool := c != '\n'

/-- Character class `[0-9]`. -/
def digitc (c : Char) : Bool := '0' ≤ c && c ≤ '9'

/-- Character class `[A-Z]` used by `REASON=([A-Z]*)`. -/
def upperc (c : Char) : Bool := 'A' ≤ c && c ≤ 'Z'

/-- Character class `[A-F0-9]` used by the `Fingerprint` regexp. -/
def hexc (c : Char) : Bool := digitc c || ('A' ≤ c && c ≤ 'F')

/-- Character class `[0-9a-z\[\]\.:]` used by `AddrPortBridgeLine`. -/
def addrc (c : Char) : Bool :=
  digitc c || ('a' ≤ c && c ≤ 'z') || c == '[' || c == ']' || c == '.' || c == ':'

/-- One item of a regular expression, restricted to the constructs that
occur in the five patterns compiled by the repository:
literal strings, single characters of a class, greedy (optionally
bounded) stars of a class, capturing stars of a class, and capturing
exact repetitions of a class. -/
inductive RItem where
  | lit : S → RItem
  | cls : (Char → Bool) → RItem
  | star : Option Nat → (Char → Bool) → RItem
  | grpStar : (Char → Bool) → RItem
  | grpRep : Nat → (Char → Bool) → RItem

/-- Length of the maximal prefix of `s` whose characters satisfy `p`:
the number of characters a greedy star over class `p` consumes before
backtracking. -/
def runLen (p : Char → Bool) (s : S) : Nat := (s.takeWhile p).length

/-- Greedy backtracking for a star item: try consuming `j` characters
first and hand the rest to the continuation `k`; on failure give back
one character at a time.  Returns the number of characters consumed
together with the continuation's captures and remainder.  This is the
preference order of Perl-style (and Go `regexp`) greedy matching. -/
def starGo (k : S → Option (List S × S)) (s : S) : Nat → Option (Nat × List S × S)
  | 0 =>
    match k (s.drop 0) with
    | some (caps, r) => some (0, caps, r)
    | none => none
  | j + 1 =>
    match k (s.drop (j + 1)) with
    | some (caps, r) => some (j + 1, caps, r)
    | none => starGo k s j

/-- Match a sequence of regex items against `s` with leftmost-first
backtracking, returning the list of group captures (in group order) and
the unconsumed remainder. -/
def matchSeq : List RItem → S → Option (List S × S)
  | [], s => some ([], s)
  | RItem.lit l :: rest, s =>
    if l.isPrefixOf s then matchSeq rest (s.drop l.length) else none
  | RItem.cls p :: rest, s =>
    match s with
    | [] => none
    | c :: s' => if p c then matchSeq rest s' else none
  | RItem.star b p :: rest, s =>
    let j0 := match b with
      | none => runLen p s
      | some m => min (runLen p s) m
    match starGo (fun s' => matchSeq rest s') s j0 with
    | some (_, caps, r) => some (caps, r)
    | none => none
  | RItem.grpStar p :: rest, s =>
    match starGo (fun s' => matchSeq rest s') s (runLen p s) with
    | some (j, caps, r) => some (s.take j :: caps, r)
    | none => none
  | RItem.grpRep n p :: rest, s =>
    if (s.take n).length = n ∧ (s.take n).all p then
      match matchSeq rest (s.drop n) with
      | some (caps, r) => some (s.take n :: caps, r)
      | none => none
    else none

/-- Attempt a match of `re` starting exactly at the head of `s`,
returning the full match (the consumed characters) and the captures. -/
def findAtHere (re : List RItem) (s : S) : Option (S × List S) :=
  match matchSeq re s with
  | some (caps, r) => some (s.take (s.length - r.length), caps)
  | none => none

/-- Unanchored leftmost search: try each start position from the left
and return, for the first position where `matchSeq` succeeds, the full
match and the group captures.  This is the search order of Go's
`Regexp.Find`/`FindStringSubmatch`. -/
def findAux (re : List RItem) : S → Option (S × List S)
  | [] => findAtHere re []
  | c :: s' =>
    match findAtHere re (c :: s') with
    | some res => some res
    | none => findAux re s'

/-- Model of `Regexp.FindStringSubmatch` for an unanchored pattern: the
full match followed by the group captures, or `[]` (Go: `nil`, length
`0`) when there is no match. -/
def findSubmatch (re : List RItem) (s : S) : List S :=
  match findAux re s with
  | some (full, caps) => full :: caps
  | none => []

/-- Model of `Regexp.FindStringSubmatch` for a `^`-anchored pattern:
with Go's default flags `^` matches only at the start of the text, so
the search degenerates to a single `matchSeq` at position 0. -/
def anchoredSubmatch (re : List RItem) (s : S) : List S :=
  match matchSeq re s with
  | some (caps, r) => s.take (s.length - r.length) :: caps
  | none => []

/-- `OrConnFields = ORCONN ([^ ]*) ([^ ]*).*ID=([0-9]*)` (events.go). -/
def orConnFields : List RItem :=
  [RItem.lit ("ORCONN ").data, RItem.grpStar nspc, RItem.lit (" ").data,
   RItem.grpStar nspc, RItem.star none dotc, RItem.lit ("ID=").data,
   RItem.grpStar digitc]

/-- `OrConnReasonField = ^650 ORCONN.*REASON=([A-Z]*)` (events.go). -/
def orConnReasonField : List RItem :=
  [RItem.lit ("650 ORCONN").data, RItem.star none dotc,
   RItem.lit ("REASON=").data, RItem.grpStar upperc]

/-- `Fingerprint = ([A-F0-9]{40})` (events.go). -/
def fingerprintRe : List RItem := [RItem.grpRep 40 hexc]

/-- `AddrPortBridgeLine = [0-9a-z\[\]\.:]+:[0-9]{1,5}` (cache.go).  The
`+` is one class character followed by an unbounded greedy star, and
`{1,5}` is one digit followed by a greedy star of at most 4 more, which
reproduces the `n` down to `1` preference order of the bounded repeat. -/
def addrPortBridgeLine : List RItem :=
  [RItem.cls addrc, RItem.star none addrc, RItem.lit (":").data,
   RItem.cls digitc, RItem.star (some 4) digitc]

/-- `BridgeFingerprintLen` (events.go): hex digits in a fingerprint. -/
def BridgeFingerprintLen : Nat := 40

/-- `BridgeStatePending` (events.go).  In the Go `const` block the
state constants are declared after `BridgeFingerprintLen = 40`, so
`iota` starts at 1 for `BridgeStatePending`. -/
def BridgeStatePending : Nat := 1

/-- `BridgeStateSuccess` (events.go): `iota` value 2. -/
def BridgeStateSuccess : Nat := 2

/-- `BridgeStateFailure` (events.go): `iota` value 3. -/
def BridgeStateFailure : Nat := 3

/-- `extractFingerprint` (events.go): `Fingerprint.Find` on the line;
the empty result (no match) is an error, modelled as `none`. -/
def extractFingerprint (line : S) : Option S :=
  match findAux fingerprintRe line with
  | some (full, _) => some full
  | none => none

/-- The `reasons` map of `getFailureDesc` (events.go), keyed by the
`REASON` code of an `ORCONN FAILED` event. -/
def reasonsMap (code : S) : Option S :=
  if code = ("DONE").data then
    some ("The OR connection has shut down cleanly.").data
  else if code = ("CONNECTREFUSED").data then
    some ("We got an ECONNREFUSED while connecting to the target OR.").data
  else if code = ("IDENTITY").data then
    some ("We connected to the OR, but found that its identity was not what we expected.").data
  else if code = ("CONNECTRESET").data then
    some ("We got an ECONNRESET or similar IO error from the connection with the OR.").data
  else if code = ("TIMEOUT").data then
    some ("We got an ETIMEOUT or similar IO error from the connection with the OR, or we\x27re closing the connection for being idle for too long.").data
  else if code = ("NOROUTE").data then
    some ("We got an ENOTCONN, ENETUNREACH, ENETDOWN, EHOSTUNREACH, or similar error while connecting to the OR.").data
  else if code = ("IOERROR").data then
    some ("We got some other IO error on our connection to the OR.").data
  else if code = ("RESOURCELIMIT").data then
    some ("We don\x27t have enough operating system resources (file descriptors, buffers, etc) to connect to the OR.").data
  else if code = ("PT_MISSING").data then
    some ("No pluggable transport was available.").data
  else if code = ("MISC").data then
    some ("The OR connection closed for some other reason.").data
  else none

/-- `getFailureDesc` (events.go): extract the `REASON` capture with the
anchored `OrConnReasonField` regexp (expecting 2 submatches) and map it
through `reasons`; both the arity mismatch and an unknown code are
errors, modelled as `none`. -/
def getFailureDesc (line : S) : Option S :=
  match anchoredSubmatch orConnReasonField line with
  | [_, code] => reasonsMap code
  | _ => none

/-- `calcMatchLength` (events.go): `min(len(target1), len(target2))`
capped at `BridgeFingerprintLen + 1 = 41`. -/
def calcMatchLength (target1 target2 : S) : Nat :=
  let length := if target2.length < target1.length then target2.length else target1.length
  if length > BridgeFingerprintLen + 1 then BridgeFingerprintLen + 1 else length

/-- `TorEventState` (events.go).  `ConnIds` (a Go `map[int]bool` whose
values are always `true`) is modelled as the list of its keys; `TestId`
(a random logging tag) is kept as a field but never influences
behaviour. -/
structure TorEventState where
  ConnIds : List Nat
  State : Nat
  Reason : S
  Fingerprint : S
  Target : S
  TestId : Nat
  deriving DecidableEq

/-- Insertion of a key into the model of the `ConnIds` map
(`t.ConnIds[i] = true`). -/
def insertId (i : Nat) (l : List Nat) : List Nat := if i ∈ l then l else i :: l

/-- `NewTorEventState` (events.go).  The random `TestId` (used only in
log lines) is modelled as 0. -/
def NewTorEventState (target : S) : TorEventState :=
  { ConnIds := [], State := BridgeStatePending, Reason := [],
    Fingerprint := [], Target := target, TestId := 0 }

/-- Model of `strconv.Atoi` at its single call site, where the argument
is the `([0-9]*)` capture: the empty string and any non-digit are
errors, and so is a value beyond Go's 64-bit `int` range. -/
def atoi (s : S) : Option Nat :=
  if s = [] then none
  else if s.all digitc then
    let v := s.foldl (fun acc c => acc * 10 + (c.toNat - 48)) 0
    if v ≤ 9223372036854775807 then some v else none
  else none

/-- `TorEventState.processOrConnLine` (events.go), translated
branch-for-branch: bail out unless `OrConnFields` yields exactly 4
submatches and the ID parses; on `LAUNCHED`, compare the event's target
against `t.Target[:calcMatchLength(target, t.Target)]` and remember the
ID on success; ignore events whose ID is untracked; on `FAILED` set
`State = BridgeStateFailure` and `Reason` to `getFailureDesc` (the empty
string when that fails); on `CONNECTED` record the extracted
fingerprint. -/
def TorEventState.processOrConnLine (t : TorEventState) (line : S) : TorEventState :=
  match findSubmatch orConnFields line with
  | [_, target, eventType, idStr] =>
    match atoi idStr with
    | none => t
    | some i =>
      let t1 :=
        if eventType = ("LAUNCHED").data ∧
            target = t.Target.take (calcMatchLength target t.Target) then
          { t with ConnIds := insertId i t.ConnIds }
        else t
      if i ∈ t1.ConnIds then
        if eventType = ("FAILED").data then
          { t1 with State := BridgeStateFailure,
                    Reason := (getFailureDesc line).getD [] }
        else if eventType = ("CONNECTED").data then
          match extractFingerprint line with
          | some f => { t1 with Fingerprint := f }
          | none => t1
        else t1
      else t1
  | _ => t

/-- `TorEventState.processNewDescLine` (events.go): extract the
fingerprint (bail out on failure) and move to `BridgeStateSuccess`
exactly when it equals the recorded `t.Fingerprint`. -/
def TorEventState.processNewDescLine (t : TorEventState) (line : S) : TorEventState :=
  match extractFingerprint line with
  | none => t
  | some fingerprint =>
    if fingerprint = t.Fingerprint then { t with State := BridgeStateSuccess }
    else t

/-- `TorEventState.Feed` (events.go): dispatch on the `^650 ORCONN` and
`^650 NEWDESC` anchored regexps; any other line is logged and ignored. -/
def TorEventState.Feed (t : TorEventState) (line : S) : TorEventState :=
  if ("650 ORCONN").data.isPrefixOf line then t.processOrConnLine line
  else if ("650 NEWDESC").data.isPrefixOf line then t.processNewDescLine line
  else t

/-- `bridgeLineToAddrPort` (cache.go): `AddrPortBridgeLine.Find` on the
bridge line; the empty result (no match) is a `ParseError`, modelled as
`none`. -/
def bridgeLineToAddrPort (bridgeLine : S) : Option S :=
  match findAux addrPortBridgeLine bridgeLine with
  | some (full, _) => some full
  | none => none

/-- `CacheEntry` (cache.go).  `Time` is modelled as an integer
timestamp (`time.Time` is an absolute instant; only comparisons and
constant offsets are used).  `HashedIdent` (a SHA-256 digest in Go) is
modelled by the pre-image identifier itself; no claim depends on the
digest's value, only on whether it is derivable. -/
structure CacheEntry where
  HashedIdent : S
  Error : S
  Time : Int
  CacheHits : Int
  deriving DecidableEq

/-- `TestCache` (cache.go).  The `Entries` map is modelled as an
association list with distinct keys; the mutex only serialises access
and has no sequential behaviour. -/
structure TestCache where
  Entries : List (S × CacheEntry)
  entryTimeout : Int
  deriving DecidableEq

/-- Map update for the association-list model of a Go map:
`m[k] = v`. -/
def setAssoc {α : Type} : List (S × α) → S → α → List (S × α)
  | [], k, v => [(k, v)]
  | (k', v') :: rest, k, v =>
    if k' = k then (k, v) :: rest else (k', v') :: setAssoc rest k v

/-- Map lookup for the association-list model of a Go map: `m[k]`
(`none` plays the role of Go's `nil` entry pointer). -/
def lookupAssoc {α : Type} : List (S × α) → S → Option α
  | [], _ => none
  | (k', v') :: rest, k => if k' = k then some v' else lookupAssoc rest k

/-- The keys of an association list. -/
def keysOf {α : Type} (m : List (S × α)) : List S := m.map Prod.fst

/-- `Modelled from the spec:` the repository's `getBridgeIdentifier` /
`toIdentity` (§4.A) is not among the provided sources (only its caller
`AddEntry` in cache.go is): "if the line contains a 40-char upper-hex
run, return `$HEX`; else return AddrPort; else fail". -/
def toIdentity (line : S) : Option S :=
  match extractFingerprint line with
  | some hex => some ('$' :: hex)
  | none => bridgeLineToAddrPort line

/-- `Modelled from the spec:` `getHashedBridgeIdentifier` (called by
`AddEntry` in cache.go) is not among the provided sources.  Per the
spec's data model it derives the bridge's Identity and hashes it; the
SHA-256 digest is modelled by the identifier itself (hashing a derived
identity cannot fail, so the function fails exactly when `toIdentity`
does). -/
def getHashedBridgeIdentifier (line : S) : Option S := toIdentity line

/-- `TestCache.IsCached` (cache.go) at wall-clock time `now`
(`time.Now().UTC()`): first prune every entry with
`entry.Time.Before(now - entryTimeout)`, then look up the line's
addr:port; a hit increments the entry's `CacheHits` in place (the Go
code mutates through the returned pointer) and returns the updated
entry.  Returns the new cache state together with the result. -/
def TestCache.IsCached (tc : TestCache) (now : Int) (bridgeLine : S) :
    TestCache × Option CacheEntry :=
  let pruned := tc.Entries.filter (fun p => !(p.2.Time < now - tc.entryTimeout))
  let tc1 : TestCache := { tc with Entries := pruned }
  match bridgeLineToAddrPort bridgeLine with
  | none => (tc1, none)
  | some addrPort =>
    match lookupAssoc tc1.Entries addrPort with
    | none => (tc1, none)
    | some e =>
      let e' := { e with CacheHits := e.CacheHits + 1 }
      ({ tc1 with Entries := setAssoc tc1.Entries addrPort e' }, some e')

/-- `TestCache.AddEntry` (cache.go): derive the addr:port key and the
hashed identifier (returning the cache unchanged if either fails) and
store `{identifier, errorStr, lastTested, 0}` under the key.  `result`
is the Go `error`: `none` is `nil` (functional bridge, empty error
string), `some msg` carries `result.Error()`.  The trailing
`metrics.FracFunctional.Set(...)` only exports a gauge and does not
change the cache. -/
def TestCache.AddEntry (tc : TestCache) (bridgeLine : S) (result : Option S)
    (lastTested : Int) : TestCache :=
  match bridgeLineToAddrPort bridgeLine with
  | none => tc
  | some addrPort =>
    match getHashedBridgeIdentifier bridgeLine with
    | none => tc
    | some identifier =>
      let errorStr := result.getD []
      let entry : CacheEntry := ⟨identifier, errorStr, lastTested, 0⟩
      { tc with Entries := setAssoc tc.Entries addrPort entry }

/-- `TestCache.FracFunctional` (cache.go): the fraction of entries with
an empty error string, `0` for an empty cache.  Modelled over `ℚ`; the
Go `float64` division is exact for the small counts any claim
evaluates. -/
def TestCache.FracFunctional (tc : TestCache) : ℚ :=
  if tc.Entries.length = 0 then 0
  else ((tc.Entries.filter (fun p => p.2.Error = [])).length : ℚ) / (tc.Entries.length : ℚ)

/-- `TestCache.WriteToDisk` (cache.go): gob-encode the cache to a file.
The gob encoder transmits the exported fields: the `Entries` map as its
key/value pairs (entry values are non-nil pointers, so every pair is
transmitted); the unexported `entryTimeout` and the mutex are not
encoded.  The on-disk representation is therefore modelled as the list
of entry pairs; file-handle errors are outside the model. -/
def TestCache.WriteToDisk (tc : TestCache) : List (S × CacheEntry) :=
  tc.Entries

/-- `TestCache.ReadFromDisk` (cache.go): gob-decode a file into `tc`.
Gob decodes a map field by storing each received key/value pair into
the receiver's existing map (allocating only when it is nil, never
clearing), so decoding merges the file's pairs into `tc.Entries`; the
unexported `entryTimeout` is untouched. -/
def TestCache.ReadFromDisk (tc : TestCache) (file : List (S × CacheEntry)) :
    TestCache :=
  { tc with Entries := file.foldl (fun es p => setAssoc es p.1 p.2) tc.Entries }

/-- `BridgeTest` (handlers.go): the per-bridge verdict returned to the
client. -/
structure BridgeTest where
  Functional : Bool
  LastTested : Int
  Error : S
  deriving DecidableEq

/-- `TestResult` (handlers.go): the batch result; `Bridges` maps each
bridge line to its verdict.  `Time` (wall-clock seconds of the
dispatcher call) is modelled as 0; no claim concerns it. -/
structure TestResult where
  Bridges : List (S × BridgeTest)
  Time : ℚ
  Error : S
  deriving DecidableEq

/-- `Modelled from the spec:` `TorContext.TestBridgeLines` (the batch
dispatcher called by `testBridgeLines` in handlers.go) is not among the
provided sources.  Per §4.E of the spec the dispatcher produces exactly
one verdict per input line, keyed by the bridge line (lines whose
identity cannot be derived still get a failure verdict).  The verdict
contents are abstracted as an oracle `verdict`; a batch-level error is
abstracted as `dispatchErr`. -/
def torTestBridgeLines (verdict : S → BridgeTest) (dispatchErr : S)
    (lines : List S) : TestResult :=
  { Bridges := lines.foldl (fun m l => setAssoc m l (verdict l)) [],
    Time := 0, Error := dispatchErr }

/-- One iteration of the cache-lookup loop of `testBridgeLines`
(handlers.go): a cached line contributes a verdict synthesised from the
cache entry; an uncached line is appended to the remainder. -/
def testStep (now : Int) (acc : TestCache × List (S × BridgeTest) × List S)
    (line : S) : TestCache × List (S × BridgeTest) × List S :=
  match acc.1.IsCached now line with
  | (tc', some e) =>
    (tc', setAssoc acc.2.1 line
      { Functional := e.Error = [], LastTested := e.Time, Error := e.Error },
     acc.2.2)
  | (tc', none) => (tc', acc.2.1, acc.2.2 ++ [line])

/-- `testBridgeLines` (handlers.go): serve every cached line from the
cache; if any lines remain, pass them to the dispatcher, then cache
each produced verdict (`AddEntry` with `errors.New(bridgeTest.Error)`,
whose message is the verdict's error string) and merge it into the
result map.  The wall-clock `result.Time` is modelled as 0. -/
def testBridgeLines (verdict : S → BridgeTest) (dispatchErr : S) (now : Int)
    (tc : TestCache) (lines : List S) : TestCache × TestResult :=
  let acc := lines.foldl (testStep now) (tc, [], [])
  if acc.2.2.isEmpty then (acc.1, { Bridges := acc.2.1, Time := 0, Error := [] })
  else
    let res := torTestBridgeLines verdict dispatchErr acc.2.2
    let final := res.Bridges.foldl
      (fun (st : TestCache × List (S × BridgeTest)) p =>
        (st.1.AddEntry p.1 (some p.2.Error) p.2.LastTested,
         setAssoc st.2 p.1 p.2))
      (acc.1, acc.2.1)
    (final.1, { Bridges := final.2, Time := 0, Error := res.Error })

/-! ## Spec-side predicates used to state the claims -/

/-- The prefix-agreement predicate exactly as the spec's words state
it: `t` and `T` agree on their first `min(len(t), len(T), 41)`
characters. -/
def prefixAgree (t T : S) : Prop :=
  t.take (min (min t.length T.length) 41) = T.take (min (min t.length T.length) 41)

instance (t T : S) : Decidable (prefixAgree t T) := by
  unfold prefixAgree
  infer_instance

/-- Numeric value of a digit string (most significant first). -/
def digitsVal (d : S) : Nat := d.foldl (fun a c => a * 10 + (c.toNat - 48)) 0

/-- The port of a `host:port` token: the numeric value of its trailing
digit run. -/
def portOf (r : S) : Nat := digitsVal ((r.reverse.takeWhile digitc).reverse)

/-- A token of the shape the `AddrPortBridgeLine` pattern
`[0-9a-z\[\]\.:]+:[0-9]{1,5}` describes: a non-empty run of address
characters, a colon, and one to five digits. -/
def isAddrPortToken (r : S) : Prop :=
  ∃ a e, r = a ++ ':' :: e ∧ a ≠ [] ∧ a.all addrc = true ∧
    e ≠ [] ∧ e.length ≤ 5 ∧ e.all digitc = true

/-- The line contains a substring matching the addr:port pattern. -/
def hasAddrPortToken (s : S) : Prop :=
  ∃ u m v, s = u ++ m ++ v ∧ isAddrPortToken m

/-- Every entry of the cache is no older than `T − TTL`: the freshness
invariant the spec asserts for every observation at time `T`. -/
def entriesFresh (tc : TestCache) (T : Int) : Prop :=
  ∀ p ∈ tc.Entries, p.2.Time ≥ T - tc.entryTimeout

/-! ## Lemmas about the regex engine -/

theorem runLen_nil (p : Char → Bool) : runLen p [] = 0 := rfl

theorem runLen_cons_pos {p : Char → Bool} {c : Char} (s : S) (h : p c = true) :
    runLen p (c :: s) = runLen p s + 1 := by
  simp [runLen, List.takeWhile_cons, h]

theorem runLen_cons_neg {p : Char → Bool} {c : Char} (s : S) (h : p c = false) :
    runLen p (c :: s) = 0 := by
  simp [runLen, List.takeWhile_cons, h]

theorem runLen_of_all {p : Char → Bool} {s : S} (h : s.all p = true) :
    runLen p s = s.length := by
  induction s with
  | nil => rfl
  | cons c s ih =>
    simp only [List.all_cons, Bool.and_eq_true] at h
    rw [runLen_cons_pos s h.1, ih h.2]
    rfl

theorem runLen_append_of_all {p : Char → Bool} {t : S} {c : Char} (u : S)
    (h : t.all p = true) (hc : p c = false) :
    runLen p (t ++ c :: u) = t.length := by
  induction t with
  | nil => simp [runLen_cons_neg u hc]
  | cons a t ih =>
    simp only [List.all_cons, Bool.and_eq_true] at h
    simpa [runLen_cons_pos _ h.1] using ih h.2

theorem length_le_runLen_append {p : Char → Bool} {t : S} (u : S)
    (h : t.all p = true) : t.length ≤ runLen p (t ++ u) := by
  induction t with
  | nil => simp
  | cons a t ih =>
    simp only [List.all_cons, Bool.and_eq_true] at h
    simp only [List.cons_append, runLen_cons_pos _ h.1, List.length_cons]
    exact Nat.succ_le_succ (ih h.2)

theorem runLen_le_length (p : Char → Bool) (s : S) : runLen p s ≤ s.length := by
  induction s with
  | nil => exact Nat.le_refl 0
  | cons c s ih =>
    by_cases hc : p c = true
    · rw [runLen_cons_pos s hc]
      exact Nat.succ_le_succ ih
    · rw [runLen_cons_neg s (by simpa using hc)]
      exact Nat.zero_le _

theorem take_runLen_all (p : Char → Bool) (s : S) {n : Nat}
    (h : n ≤ runLen p s) : (s.take n).all p = true := by
  induction s generalizing n with
  | nil => simp [List.take_nil]
  | cons c s ih =>
    cases n with
    | zero => simp
    | succ n =>
      by_cases hc : p c = true
      · rw [runLen_cons_pos s hc] at h
        rw [List.take_succ_cons, List.all_cons, hc, Bool.true_and]
        exact ih (Nat.le_of_succ_le_succ h)
      · rw [runLen_cons_neg s (by simpa using hc)] at h
        exact absurd h (by omega)

theorem matchSeq_nil_items (s : S) : matchSeq [] s = some ([], s) := rfl

theorem matchSeq_lit_append {l s : S} {rest : List RItem} :
    matchSeq (RItem.lit l :: rest) (l ++ s) = matchSeq rest s := by
  have hp : l.isPrefixOf (l ++ s) = true := by
    rw [List.isPrefixOf_iff_prefix]
    exact List.prefix_append l s
  simp [matchSeq, hp, List.drop_left]

theorem matchSeq_lit_none {l s : S} {rest : List RItem}
    (h : l.isPrefixOf s = false) : matchSeq (RItem.lit l :: rest) s = none := by
  simp [matchSeq, h]

theorem matchSeq_lit_cons_ne {a c : Char} {l s : S} {rest : List RItem}
    (h : (a == c) = false) :
    matchSeq (RItem.lit (a :: l) :: rest) (c :: s) = none := by
  apply matchSeq_lit_none
  simp [List.isPrefixOf, h]

theorem matchSeq_lit_nil {a : Char} {l : S} {rest : List RItem} :
    matchSeq (RItem.lit (a :: l) :: rest) [] = none := by
  apply matchSeq_lit_none
  rfl

theorem starGo_succ {k : S → Option (List S × S)} {s : S} {j : Nat}
    {caps : List S} {r : S} (h : k (s.drop j) = some (caps, r)) :
    starGo k s j = some (j, caps, r) := by
  cases j with
  | zero =>
    rw [List.drop_zero] at h
    simp [starGo, h]
  | succ n => simp [starGo, h]

theorem starGo_step {k : S → Option (List S × S)} {s : S} {j : Nat}
    (h : k (s.drop (j + 1)) = none) : starGo k s (j + 1) = starGo k s j := by
  simp [starGo, h]

theorem starGo_zero_none {k : S → Option (List S × S)} {s : S}
    (h : k (s.drop 0) = none) : starGo k s 0 = none := by
  rw [List.drop_zero] at h
  simp [starGo, h]

theorem starGo_of_fail_above {k : S → Option (List S × S)} {s : S} {i j : Nat}
    (hij : i ≤ j) (hfail : ∀ m, i < m → m ≤ j → k (s.drop m) = none) :
    starGo k s j = starGo k s i := by
  induction j with
  | zero => rw [Nat.le_zero.mp hij]
  | succ n ih =>
    rcases Nat.eq_or_lt_of_le hij with heq | hlt
    · rw [heq]
    · have hn : i ≤ n := Nat.lt_succ_iff.mp hlt
      rw [starGo_step (hfail (n + 1) hlt (Nat.le_refl _))]
      exact ih hn (fun m h1 h2 => hfail m h1 (Nat.le_succ_of_le h2))

theorem starGo_sound {k : S → Option (List S × S)} {s : S} {j j' : Nat}
    {caps : List S} {r : S} (h : starGo k s j = some (j', caps, r)) :
    j' ≤ j ∧ k (s.drop j') = some (caps, r) := by
  induction j with
  | zero =>
    rcases hk : k (s.drop 0) with _ | ⟨caps', r'⟩
    · rw [starGo_zero_none hk] at h
      exact absurd h (by simp)
    · rw [starGo_succ hk] at h
      simp only [Option.some.injEq, Prod.mk.injEq] at h
      obtain ⟨h1, h2, h3⟩ := h
      subst h1 h2 h3
      exact ⟨Nat.le_refl _, hk⟩
  | succ n ih =>
    rcases hk : k (s.drop (n + 1)) with _ | ⟨caps', r'⟩
    · rw [starGo_step hk] at h
      obtain ⟨h1, h2⟩ := ih h
      exact ⟨Nat.le_succ_of_le h1, h2⟩
    · rw [starGo_succ hk] at h
      simp only [Option.some.injEq, Prod.mk.injEq] at h
      obtain ⟨h1, h2, h3⟩ := h
      subst h1 h2 h3
      exact ⟨Nat.le_refl _, hk⟩

theorem starGo_isSome_of_exists {k : S → Option (List S × S)} {s : S} {j : Nat}
    (h : ∃ m, m ≤ j ∧ (k (s.drop m)).isSome = true) :
    (starGo k s j).isSome = true := by
  induction j with
  | zero =>
    obtain ⟨m, hm, hs⟩ := h
    rw [Nat.le_zero.mp hm] at hs
    rcases hk : k (s.drop 0) with _ | ⟨caps, r⟩
    · rw [hk] at hs
      simp at hs
    · rw [starGo_succ hk]
      rfl
  | succ n ih =>
    rcases hk : k (s.drop (n + 1)) with _ | ⟨caps, r⟩
    · obtain ⟨m, hm, hs⟩ := h
      have hmn : m ≤ n := by
        rcases Nat.eq_or_lt_of_le hm with heq | hlt
        · rw [heq, hk] at hs
          simp at hs
        · exact Nat.lt_succ_iff.mp hlt
      rw [starGo_step hk]
      exact ih ⟨m, hmn, hs⟩
    · rw [starGo_succ hk]
      rfl

theorem beq_false_of_class {p : Char → Bool} {a c : Char} (hc : p c = true)
    (ha : p a = false) : (a == c) = false := by
  cases hb : a == c
  · rfl
  · rw [beq_iff_eq] at hb
    subst hb
    rw [hc] at ha
    exact absurd ha (by simp)

theorem matchSeq_cls_pos {p : Char → Bool} {c : Char} {s : S} {rest : List RItem}
    (h : p c = true) : matchSeq (RItem.cls p :: rest) (c :: s) = matchSeq rest s := by
  simp [matchSeq, h]

theorem matchSeq_star_none_eq (p : Char → Bool) (rest : List RItem) (s : S) :
    matchSeq (RItem.star none p :: rest) s =
      match starGo (fun s' => matchSeq rest s') s (runLen p s) with
      | some (_, caps, r) => some (caps, r)
      | none => none := rfl

theorem matchSeq_star_some_eq (m : Nat) (p : Char → Bool) (rest : List RItem) (s : S) :
    matchSeq (RItem.star (some m) p :: rest) s =
      match starGo (fun s' => matchSeq rest s') s (min (runLen p s) m) with
      | some (_, caps, r) => some (caps, r)
      | none => none := rfl

theorem matchSeq_grpStar_eq (p : Char → Bool) (rest : List RItem) (s : S) :
    matchSeq (RItem.grpStar p :: rest) s =
      match starGo (fun s' => matchSeq rest s') s (runLen p s) with
      | some (j, caps, r) => some (s.take j :: caps, r)
      | none => none := rfl

theorem matchSeq_grpStar_sep {p : Char → Bool} {t u : S} {c : Char}
    {rest : List RItem} {caps : List S} {r : S}
    (ht : t.all p = true) (hc : p c = false)
    (h : matchSeq rest (c :: u) = some (caps, r)) :
    matchSeq (RItem.grpStar p :: rest) (t ++ c :: u) = some (t :: caps, r) := by
  rw [matchSeq_grpStar_eq]
  have hr : runLen p (t ++ c :: u) = t.length := runLen_append_of_all u ht hc
  have hd : (t ++ c :: u).drop t.length = c :: u := List.drop_left t (c :: u)
  rw [hr, starGo_succ (by rw [hd]; exact h)]
  simp [List.take_left]

theorem matchSeq_grpStar_all {p : Char → Bool} {s : S} (h : s.all p = true) :
    matchSeq [RItem.grpStar p] s = some ([s], []) := by
  rw [matchSeq_grpStar_eq]
  have hr : runLen p s = s.length := runLen_of_all h
  have hk : matchSeq [] (s.drop s.length) = some ([], []) := by
    rw [List.drop_length]
    rfl
  rw [hr, starGo_succ hk]
  simp [List.take_length]

theorem matchSeq_dotstar_back {rest : List RItem} {s : S} {i : Nat}
    {caps : List S} {r : S}
    (hall : s.all dotc = true) (hi : i ≤ s.length)
    (hfail : ∀ m, i < m → m ≤ s.length → matchSeq rest (s.drop m) = none)
    (h : matchSeq rest (s.drop i) = some (caps, r)) :
    matchSeq (RItem.star none dotc :: rest) s = some (caps, r) := by
  rw [matchSeq_star_none_eq]
  have hr : runLen dotc s = s.length := runLen_of_all hall
  rw [hr, starGo_of_fail_above hi (fun m h1 h2 => hfail m h1 h2), starGo_succ h]

theorem matchSeq_grpRep_of {n : Nat} {p : Char → Bool} {s : S} {rest : List RItem}
    {caps : List S} {r : S}
    (hl : (s.take n).length = n) (ha : (s.take n).all p = true)
    (h : matchSeq rest (s.drop n) = some (caps, r)) :
    matchSeq (RItem.grpRep n p :: rest) s = some (s.take n :: caps, r) := by
  simp [matchSeq, hl, ha, h]

theorem matchSeq_grpRep_none_bad {n : Nat} {p : Char → Bool} {rest : List RItem}
    {u v : S} {c : Char} (hu : u.length < n) (hc : p c = false) :
    matchSeq (RItem.grpRep n p :: rest) (u ++ c :: v) = none := by
  have hmem : c ∈ (u ++ c :: v).take n := by
    rw [List.take_append_eq_append_take, List.take_of_length_le (Nat.le_of_lt hu)]
    apply List.mem_append_right
    have hpos : n - u.length = (n - u.length - 1) + 1 := by omega
    rw [hpos, List.take_succ_cons]
    exact List.mem_cons_self c _
  have hall : ((u ++ c :: v).take n).all p = false :=
    List.all_eq_false.mpr ⟨c, hmem, by simp [hc]⟩
  simp [matchSeq, hall]

theorem matchSeq_lit_class_drop {p : Char → Bool} {a : Char} {l d : S}
    {rest : List RItem} (hd : d.all p = true) (ha : p a = false) (x : Nat) :
    matchSeq (RItem.lit (a :: l) :: rest) (d.drop x) = none := by
  cases hdx : d.drop x with
  | nil => exact matchSeq_lit_nil
  | cons c cs =>
    have hc : c ∈ d := List.drop_subset x d (hdx ▸ List.mem_cons_self c cs)
    have hpc : p c = true := List.all_eq_true.mp hd c hc
    exact matchSeq_lit_cons_ne (beq_false_of_class hpc ha)

theorem findAux_here {re : List RItem} {s : S} {caps : List S} {r : S}
    (h : matchSeq re s = some (caps, r)) :
    findAux re s = some (s.take (s.length - r.length), caps) := by
  cases s with
  | nil => simp [findAux, findAtHere, h]
  | cons c s' => simp [findAux, findAtHere, h]

theorem findAux_step {re : List RItem} {c : Char} {s : S}
    (h : matchSeq re (c :: s) = none) : findAux re (c :: s) = findAux re s := by
  simp [findAux, findAtHere, h]

theorem findAux_nil_none {re : List RItem} (h : matchSeq re [] = none) :
    findAux re [] = none := by
  simp [findAux, findAtHere, h]

theorem findAux_step_lit {a c : Char} {l s : S} {rest : List RItem}
    (h : (a == c) = false) :
    findAux (RItem.lit (a :: l) :: rest) (c :: s) =
      findAux (RItem.lit (a :: l) :: rest) s :=
  findAux_step (matchSeq_lit_cons_ne h)

theorem append_split_of_not_mem {A : List Char} :
    ∀ {B u v : List Char} {c : Char}, A ++ B = u ++ c :: v → c ∉ A →
      ∃ w, u = A ++ w ∧ B = w ++ c :: v := by
  induction A with
  | nil =>
    intro B u v c h _
    exact ⟨u, by simp, by simpa using h⟩
  | cons a A ih =>
    intro B u v c h hA
    cases u with
    | nil =>
      simp only [List.cons_append, List.nil_append] at h
      have : a = c := (List.cons_eq_cons.mp h).1
      exact absurd (this ▸ List.mem_cons_self a A) hA
    | cons b u' =>
      simp only [List.cons_append] at h
      obtain ⟨hab, h2⟩ := List.cons_eq_cons.mp h
      have hA' : c ∉ A := fun hm => hA (List.mem_cons_of_mem a hm)
      obtain ⟨w, hw1, hw2⟩ := ih h2 hA'
      exact ⟨w, by rw [hab, hw1, List.cons_append], hw2⟩

theorem matchSeq_lit_single {c : Char} {s : S} {rest : List RItem} :
    matchSeq (RItem.lit (c :: []) :: rest) (c :: s) = matchSeq rest s := by
  have h : (c :: []) ++ s = c :: s := rfl
  rw [← h, matchSeq_lit_append]

theorem all_mono {p q : Char → Bool} {l : S}
    (h : ∀ c, p c = true → q c = true) (hl : l.all p = true) : l.all q = true := by
  rw [List.all_eq_true] at hl ⊢
  exact fun x hx => h x (hl x hx)

theorem digitc_dotc : ∀ c, digitc c = true → dotc c = true := by
  intro c h
  by_cases hc : c = '\n'
  · subst hc
    exact absurd h (by decide)
  · simp [dotc, hc]

theorem upperc_dotc : ∀ c, upperc c = true → dotc c = true := by
  intro c h
  by_cases hc : c = '\n'
  · subst hc
    exact absurd h (by decide)
  · simp [dotc, hc]

theorem nspc_ne_nl_dotc {t : S} (h : t.all (fun c => nspc c && dotc c) = true) :
    t.all dotc = true :=
  all_mono (fun c hc => by simp only [Bool.and_eq_true] at hc; exact hc.2) h

theorem nspc_of_both {t : S} (h : t.all (fun c => nspc c && dotc c) = true) :
    t.all nspc = true :=
  all_mono (fun c hc => by simp only [Bool.and_eq_true] at hc; exact hc.1) h

theorem drop_append_ge {A z : List Char} {n : Nat} (h : A.length ≤ n) :
    (A ++ z).drop n = z.drop (n - A.length) := by
  rw [List.drop_append_eq_append_drop, List.drop_eq_nil_of_le h, List.nil_append]

/-- The continuation `ID=([0-9]*)` of the `.*` in `OrConnFields` fails
on every suffix of the digit block `d`. -/
theorem idK_none_digits {d : S} (hd : d.all digitc = true) (x : Nat) :
    matchSeq [RItem.lit ('I' :: 'D' :: '=' ::[]), RItem.grpStar digitc] (d.drop x) = none :=
  matchSeq_lit_class_drop hd (by decide) x

/-- The continuation `ID=([0-9]*)` succeeds exactly at the final `ID=`
marker, capturing the digit block. -/
theorem idK_succeeds {d : S} (hd : d.all digitc = true) :
    matchSeq [RItem.lit ('I' :: 'D' :: '=' ::[]), RItem.grpStar digitc]
      (('I' :: 'D' :: '=' ::[]) ++ d) = some ([d], []) := by
  rw [matchSeq_lit_append]
  exact matchSeq_grpStar_all hd

/-- Past the final `ID=` marker the continuation fails everywhere. -/
theorem idK_fail_after {d : S} (hd : d.all digitc = true) :
    ∀ q, 1 ≤ q →
      matchSeq [RItem.lit ('I' :: 'D' :: '=' ::[]), RItem.grpStar digitc]
        ((('I' :: 'D' :: '=' ::[]) ++ d).drop q) = none := by
  intro q hq
  have he : ('I' :: 'D' :: '=' ::[]) ++ d = 'I' :: 'D' :: '=' ::d := rfl
  rw [he]
  rcases q with _|q
  · omega
  rcases q with _|q
  · simp only [List.drop_succ_cons, List.drop_zero]
    exact matchSeq_lit_cons_ne (by decide)
  rcases q with _|q
  · simp only [List.drop_succ_cons, List.drop_zero]
    exact matchSeq_lit_cons_ne (by decide)
  simp only [List.drop_succ_cons]
  exact idK_none_digits hd q

/-- In the tail `R ++ " ID=" ++ d` of a well-formed `FAILED` line (`R`
upper-case, `d` digits) the literal `REASON=` occurs nowhere: the only
`=` is preceded by `D`, not by `N`. -/
theorem reason_prefix_false {R d : S} (hR : R.all upperc = true)
    (hd : d.all digitc = true) (x : Nat) :
    ('R' :: 'E' :: 'A' :: 'S' :: 'O' :: 'N' :: '=' ::[]).isPrefixOf
      ((R ++ (' ' :: 'I' :: 'D' :: '=' ::d)).drop x) = false := by
  cases hb : ('R' :: 'E' :: 'A' :: 'S' :: 'O' :: 'N' :: '=' ::[]).isPrefixOf
      ((R ++ (' ' :: 'I' :: 'D' :: '=' ::d)).drop x)
  · rfl
  · exfalso
    rw [List.isPrefixOf_iff_prefix] at hb
    obtain ⟨w, hw⟩ := hb
    have hXeq : R ++ (' ' :: 'I' :: 'D' :: '=' ::d) =
        ((R ++ (' ' :: 'I' :: 'D' :: '=' ::d)).take x ++
          ('R' :: 'E' :: 'A' :: 'S' :: 'O' :: 'N' ::[])) ++ '=' :: w := by
      conv_lhs => rw [← List.take_append_drop x (R ++ (' ' :: 'I' :: 'D' :: '=' ::d)), ← hw]
      simp [List.append_assoc]
    have hne : '=' ∉ R := by
      intro hm
      have := List.all_eq_true.mp hR '=' hm
      exact absurd this (by decide)
    obtain ⟨w', hw1, hw2⟩ := append_split_of_not_mem hXeq hne
    -- hw2 : ' ' :: 'I' :: 'D' :: '=' ::d = w' ++ '=' :: w
    cases w' with
    | nil =>
      exact absurd (List.cons_eq_cons.mp hw2).1 (by decide)
    | cons c1 w1 =>
      obtain ⟨hc1, hw2⟩ := List.cons_eq_cons.mp hw2
      cases w1 with
      | nil =>
        exact absurd (List.cons_eq_cons.mp hw2).1 (by decide)
      | cons c2 w2 =>
        obtain ⟨hc2, hw2⟩ := List.cons_eq_cons.mp hw2
        cases w2 with
        | nil =>
          exact absurd (List.cons_eq_cons.mp hw2).1 (by decide)
        | cons c3 w3 =>
          obtain ⟨hc3, hw2⟩ := List.cons_eq_cons.mp hw2
          cases w3 with
          | nil =>
            -- w' = [' ', 'I', 'D']; compare last characters of hw1
            subst hc1 hc2 hc3
            have h1 : ((R ++ (' ' :: 'I' :: 'D' :: '=' ::d)).take x ++
                ('R' :: 'E' :: 'A' :: 'S' :: 'O' :: 'N' ::[])).getLast? = some 'N' := by
              rw [List.getLast?_append_of_ne_nil _ (by decide)]
              rfl
            have h2 : (R ++ (' ' :: 'I' :: 'D' ::[] : S)).getLast? = some 'D' := by
              rw [List.getLast?_append_of_ne_nil _ (by decide)]
              rfl
            rw [hw1] at h1
            rw [h2] at h1
            exact absurd (Option.some.inj h1) (by decide)
          | cons c4 w4 =>
            obtain ⟨hc4, hw2⟩ := List.cons_eq_cons.mp hw2
            -- hw2 : d = w4 ++ '=' :: w, so '=' ∈ d
            have hmem : '=' ∈ d := by
              rw [hw2]
              exact List.mem_append_right w4 (List.mem_cons_self '=' w)
            have := List.all_eq_true.mp hd '=' hmem
            exact absurd this (by decide)

/-- The continuation `REASON=([A-Z]*)` of `.*` in `OrConnReasonField`
fails on every suffix of the tail `R ++ " ID=" ++ d`. -/
theorem reasonK_none {R d : S} (hR : R.all upperc = true)
    (hd : d.all digitc = true) (x : Nat) :
    matchSeq [RItem.lit ('R' :: 'E' :: 'A' :: 'S' :: 'O' :: 'N' :: '=' ::[]),
      RItem.grpStar upperc] ((R ++ (' ' :: 'I' :: 'D' :: '=' ::d)).drop x) = none :=
  matchSeq_lit_none (reason_prefix_false hR hd x)

/-- Past the true `REASON=` marker of a `FAILED` line, the continuation
`REASON=([A-Z]*)` fails everywhere: first on the proper suffixes of the
marker itself, then (by `reasonK_none`) on the rest of the line. -/
theorem reasonK_fail_after {R d : S} (hR : R.all upperc = true)
    (hd : d.all digitc = true) :
    ∀ q, 1 ≤ q →
      matchSeq [RItem.lit ('R' :: 'E' :: 'A' :: 'S' :: 'O' :: 'N' :: '=' ::[]),
        RItem.grpStar upperc]
        ((('R' :: 'E' :: 'A' :: 'S' :: 'O' :: 'N' :: '=' ::[]) ++
          (R ++ (' ' :: 'I' :: 'D' :: '=' ::d))).drop q) = none := by
  intro q hq
  have he : ('R' :: 'E' :: 'A' :: 'S' :: 'O' :: 'N' :: '=' ::[]) ++ (R ++ (' ' :: 'I' :: 'D' :: '=' ::d)) =
      'R' :: 'E' :: 'A' :: 'S' :: 'O' :: 'N' :: '=' ::(R ++ (' ' :: 'I' :: 'D' :: '=' ::d)) := rfl
  rw [he]
  rcases q with _|q
  · omega
  rcases q with _|q
  · simp only [List.drop_succ_cons, List.drop_zero]
    exact matchSeq_lit_cons_ne (by decide)
  rcases q with _|q
  · simp only [List.drop_succ_cons, List.drop_zero]
    exact matchSeq_lit_cons_ne (by decide)
  rcases q with _|q
  · simp only [List.drop_succ_cons, List.drop_zero]
    exact matchSeq_lit_cons_ne (by decide)
  rcases q with _|q
  · simp only [List.drop_succ_cons, List.drop_zero]
    exact matchSeq_lit_cons_ne (by decide)
  rcases q with _|q
  · simp only [List.drop_succ_cons, List.drop_zero]
    exact matchSeq_lit_cons_ne (by decide)
  rcases q with _|q
  · simp only [List.drop_succ_cons, List.drop_zero]
    exact matchSeq_lit_cons_ne (by decide)
  simp only [List.drop_succ_cons]
  exact reasonK_none hR hd q

theorem orConnFields_eq : orConnFields =
    [RItem.lit ('O' :: 'R' :: 'C' :: 'O' :: 'N' :: 'N' :: ' ' ::[]), RItem.grpStar nspc,
     RItem.lit (' ' ::[]), RItem.grpStar nspc, RItem.star none dotc,
     RItem.lit ('I' :: 'D' :: '=' ::[]), RItem.grpStar digitc] := rfl

/-- The `.*ID=([0-9]*)` section of `OrConnFields` on the tail
`" ID=" ++ d` of a `LAUNCHED` line: the greedy `.*` backtracks to the
last (only) `ID=` marker and the digit group captures `d`. -/
theorem matchSeq_idtail {d : S} (hd : d.all digitc = true) :
    matchSeq [RItem.star none dotc, RItem.lit ('I' :: 'D' :: '=' ::[]),
      RItem.grpStar digitc] (' ' :: (('I' :: 'D' :: '=' ::[]) ++ d)) = some ([d], []) := by
  apply matchSeq_dotstar_back (i := 1)
  · have hddot : d.all dotc = true := all_mono digitc_dotc hd
    simp only [List.all_cons, List.all_append, hddot]
    decide
  · simp
  · intro m h1 h2
    obtain ⟨q, rfl⟩ : ∃ q, m = q + 2 := ⟨m - 2, by omega⟩
    have hdrop : (' ' :: (('I' :: 'D' :: '=' ::[]) ++ d)).drop (q + 2) =
        ((('I' :: 'D' :: '=' ::[]) ++ d)).drop (q + 1) := by
      simp [List.drop_succ_cons]
    rw [hdrop]
    exact idK_fail_after hd (q + 1) (by omega)
  · simp only [List.drop_succ_cons, List.drop_zero]
    exact idK_succeeds hd

/-- The second group and the tail of `OrConnFields` on
`"LAUNCHED ID=" ++ d`. -/
theorem matchSeq_g2_launched {d : S} (hd : d.all digitc = true) :
    matchSeq [RItem.grpStar nspc, RItem.star none dotc,
      RItem.lit ('I' :: 'D' :: '=' ::[]), RItem.grpStar digitc]
      (('L' :: 'A' :: 'U' :: 'N' :: 'C' :: 'H' :: 'E' :: 'D' ::[]) ++
        (' ' :: (('I' :: 'D' :: '=' ::[]) ++ d))) =
      some ([('L' :: 'A' :: 'U' :: 'N' :: 'C' :: 'H' :: 'E' :: 'D' ::[]), d], []) :=
  matchSeq_grpStar_sep (by decide) (by decide) (matchSeq_idtail hd)

/-- `OrConnFields` matched at the `ORCONN` position of a `LAUNCHED`
line: the three captures are the target, the verb, and the ID digits. -/
theorem matchSeq_orconn_launched {t d : S}
    (ht : t.all nspc = true) (hd : d.all digitc = true) :
    matchSeq orConnFields
      (('O' :: 'R' :: 'C' :: 'O' :: 'N' :: 'N' :: ' ' ::[]) ++
        (t ++ (' ' :: (('L' :: 'A' :: 'U' :: 'N' :: 'C' :: 'H' :: 'E' :: 'D' ::[]) ++
          (' ' :: (('I' :: 'D' :: '=' ::[]) ++ d)))))) =
      some ([t, ('L' :: 'A' :: 'U' :: 'N' :: 'C' :: 'H' :: 'E' :: 'D' ::[]), d], []) := by
  rw [orConnFields_eq]
  rw [matchSeq_lit_append]
  exact matchSeq_grpStar_sep ht (by decide)
    (by rw [matchSeq_lit_single]; exact matchSeq_g2_launched hd)

/-- `FindStringSubmatch(OrConnFields)` on a full `LAUNCHED` event line:
exactly 4 submatches, capturing target, verb `LAUNCHED`, and ID. -/
theorem findSubmatch_launched {t d : S}
    (ht : t.all nspc = true) (hd : d.all digitc = true) :
    ∃ f, findSubmatch orConnFields
      (("650 ORCONN ").data ++ t ++ (" LAUNCHED ID=").data ++ d) =
      [f, t, ('L' :: 'A' :: 'U' :: 'N' :: 'C' :: 'H' :: 'E' :: 'D' ::[]), d] := by
  have hline : ("650 ORCONN ").data ++ t ++ (" LAUNCHED ID=").data ++ d =
      '6' :: '5' :: '0' :: ' ' ::
        (('O' :: 'R' :: 'C' :: 'O' :: 'N' :: 'N' :: ' ' ::[]) ++
          (t ++ (' ' :: (('L' :: 'A' :: 'U' :: 'N' :: 'C' :: 'H' :: 'E' :: 'D' ::[]) ++
            (' ' :: (('I' :: 'D' :: '=' ::[]) ++ d)))))) := by
    rw [List.append_assoc, List.append_assoc]
    rfl
  rw [hline]
  have hm := matchSeq_orconn_launched ht hd
  rw [orConnFields_eq] at hm ⊢
  rw [findSubmatch]
  rw [findAux_step_lit (by decide), findAux_step_lit (by decide),
    findAux_step_lit (by decide), findAux_step_lit (by decide)]
  rw [findAux_here hm]
  exact ⟨_, rfl⟩

/-- The `.*ID=([0-9]*)` section of `OrConnFields` on the tail
`" REASON=" ++ R ++ " ID=" ++ d` of a `FAILED` line: the greedy `.*`
backtracks to the final `ID=` marker, skipping the `REASON` field. -/
theorem matchSeq_dottail_failed {R d : S} (hR : R.all upperc = true)
    (hd : d.all digitc = true) :
    matchSeq [RItem.star none dotc, RItem.lit ('I' :: 'D' :: '=' ::[]),
      RItem.grpStar digitc]
      (' ' :: (('R' :: 'E' :: 'A' :: 'S' :: 'O' :: 'N' :: '=' ::[]) ++
        (R ++ (' ' :: (('I' :: 'D' :: '=' ::[]) ++ d))))) = some ([d], []) := by
  have hsplit : ' ' :: (('R' :: 'E' :: 'A' :: 'S' :: 'O' :: 'N' :: '=' ::[]) ++
      (R ++ (' ' :: (('I' :: 'D' :: '=' ::[]) ++ d)))) =
      (' ' :: (('R' :: 'E' :: 'A' :: 'S' :: 'O' :: 'N' :: '=' ::[]) ++ (R ++ (' ' ::[])))) ++
        (('I' :: 'D' :: '=' ::[]) ++ d) := by
    simp [List.append_assoc]
  rw [hsplit]
  apply matchSeq_dotstar_back
    (i := (' ' :: (('R' :: 'E' :: 'A' :: 'S' :: 'O' :: 'N' :: '=' ::[]) ++ (R ++ (' ' ::[])))).length)
  · have hddot : d.all dotc = true := all_mono digitc_dotc hd
    have hRdot : R.all dotc = true := all_mono upperc_dotc hR
    simp only [List.all_cons, List.all_append, hddot, hRdot]
    decide
  · simp [List.length_append]
  · intro m h1 h2
    rw [drop_append_ge (Nat.le_of_lt h1)]
    exact idK_fail_after hd _ (by omega)
  · rw [List.drop_left]
    exact idK_succeeds hd

/-- The second group and tail of `OrConnFields` on
`"FAILED REASON=" ++ R ++ " ID=" ++ d`. -/
theorem matchSeq_g2_failed {R d : S} (hR : R.all upperc = true)
    (hd : d.all digitc = true) :
    matchSeq [RItem.grpStar nspc, RItem.star none dotc,
      RItem.lit ('I' :: 'D' :: '=' ::[]), RItem.grpStar digitc]
      (('F' :: 'A' :: 'I' :: 'L' :: 'E' :: 'D' ::[]) ++
        (' ' :: (('R' :: 'E' :: 'A' :: 'S' :: 'O' :: 'N' :: '=' ::[]) ++
          (R ++ (' ' :: (('I' :: 'D' :: '=' ::[]) ++ d)))))) =
      some ([('F' :: 'A' :: 'I' :: 'L' :: 'E' :: 'D' ::[]), d], []) :=
  matchSeq_grpStar_sep (by decide) (by decide) (matchSeq_dottail_failed hR hd)

/-- `OrConnFields` matched at the `ORCONN` position of a `FAILED` line. -/
theorem matchSeq_orconn_failed {t R d : S} (ht : t.all nspc = true)
    (hR : R.all upperc = true) (hd : d.all digitc = true) :
    matchSeq orConnFields
      (('O' :: 'R' :: 'C' :: 'O' :: 'N' :: 'N' :: ' ' ::[]) ++
        (t ++ (' ' :: (('F' :: 'A' :: 'I' :: 'L' :: 'E' :: 'D' ::[]) ++
          (' ' :: (('R' :: 'E' :: 'A' :: 'S' :: 'O' :: 'N' :: '=' ::[]) ++
            (R ++ (' ' :: (('I' :: 'D' :: '=' ::[]) ++ d))))))))) =
      some ([t, ('F' :: 'A' :: 'I' :: 'L' :: 'E' :: 'D' ::[]), d], []) := by
  rw [orConnFields_eq]
  rw [matchSeq_lit_append]
  exact matchSeq_grpStar_sep ht (by decide)
    (by rw [matchSeq_lit_single]; exact matchSeq_g2_failed hR hd)

/-- `FindStringSubmatch(OrConnFields)` on a full `FAILED` event line:
exactly 4 submatches, capturing target, verb `FAILED`, and ID. -/
theorem findSubmatch_failed {t R d : S} (ht : t.all nspc = true)
    (hR : R.all upperc = true) (hd : d.all digitc = true) :
    ∃ f, findSubmatch orConnFields
      (("650 ORCONN ").data ++ t ++ (" FAILED REASON=").data ++ R ++
        (" ID=").data ++ d) =
      [f, t, ('F' :: 'A' :: 'I' :: 'L' :: 'E' :: 'D' ::[]), d] := by
  have hline : ("650 ORCONN ").data ++ t ++ (" FAILED REASON=").data ++ R ++
      (" ID=").data ++ d =
      '6' :: '5' :: '0' :: ' ' ::
        (('O' :: 'R' :: 'C' :: 'O' :: 'N' :: 'N' :: ' ' ::[]) ++
          (t ++ (' ' :: (('F' :: 'A' :: 'I' :: 'L' :: 'E' :: 'D' ::[]) ++
            (' ' :: (('R' :: 'E' :: 'A' :: 'S' :: 'O' :: 'N' :: '=' ::[]) ++
              (R ++ (' ' :: (('I' :: 'D' :: '=' ::[]) ++ d))))))))) := by
    rw [List.append_assoc, List.append_assoc, List.append_assoc,
      List.append_assoc]
    rfl
  rw [hline]
  have hm := matchSeq_orconn_failed ht hR hd
  rw [orConnFields_eq] at hm ⊢
  rw [findSubmatch]
  rw [findAux_step_lit (by decide), findAux_step_lit (by decide),
    findAux_step_lit (by decide), findAux_step_lit (by decide)]
  rw [findAux_here hm]
  exact ⟨_, rfl⟩

theorem orConnReasonField_eq : orConnReasonField =
    [RItem.lit ('6' :: '5' :: '0' :: ' ' :: 'O' :: 'R' :: 'C' :: 'O' :: 'N' :: 'N' ::[]),
     RItem.star none dotc,
     RItem.lit ('R' :: 'E' :: 'A' :: 'S' :: 'O' :: 'N' :: '=' ::[]),
     RItem.grpStar upperc] := rfl

/-- `FindStringSubmatch(OrConnReasonField)` on a full `FAILED` event
line captures exactly the `REASON` code `R`: the greedy `.*` backtracks
to the last `REASON=` marker (the real one; the tail contains no other)
and `([A-Z]*)` takes the maximal upper-case run after it. -/
theorem anchored_reason_failed {t R d : S} (ht : t.all dotc = true)
    (hR : R.all upperc = true) (hd : d.all digitc = true) :
    ∃ f, anchoredSubmatch orConnReasonField
      (("650 ORCONN ").data ++ t ++ (" FAILED REASON=").data ++ R ++
        (" ID=").data ++ d) = [f, R] := by
  have hline : ("650 ORCONN ").data ++ t ++ (" FAILED REASON=").data ++ R ++
      (" ID=").data ++ d =
      ('6' :: '5' :: '0' :: ' ' :: 'O' :: 'R' :: 'C' :: 'O' :: 'N' :: 'N' ::[]) ++
        (' ' :: (t ++ ((' ' :: 'F' :: 'A' :: 'I' :: 'L' :: 'E' :: 'D' :: ' ' ::[]) ++
          (('R' :: 'E' :: 'A' :: 'S' :: 'O' :: 'N' :: '=' ::[]) ++
            (R ++ (' ' :: 'I' :: 'D' :: '=' ::d)))))) := by
    rw [List.append_assoc, List.append_assoc, List.append_assoc,
      List.append_assoc]
    rfl
  have hsplit : ' ' :: (t ++ ((' ' :: 'F' :: 'A' :: 'I' :: 'L' :: 'E' :: 'D' :: ' ' ::[]) ++
      (('R' :: 'E' :: 'A' :: 'S' :: 'O' :: 'N' :: '=' ::[]) ++
        (R ++ (' ' :: 'I' :: 'D' :: '=' ::d))))) =
      (' ' :: (t ++ (' ' :: 'F' :: 'A' :: 'I' :: 'L' :: 'E' :: 'D' :: ' ' ::[]))) ++
        ((('R' :: 'E' :: 'A' :: 'S' :: 'O' :: 'N' :: '=' ::[]) ++
          (R ++ (' ' :: 'I' :: 'D' :: '=' ::d)))) := by
    simp [List.append_assoc]
  have hstar : matchSeq [RItem.star none dotc,
      RItem.lit ('R' :: 'E' :: 'A' :: 'S' :: 'O' :: 'N' :: '=' ::[]), RItem.grpStar upperc]
      (' ' :: (t ++ ((' ' :: 'F' :: 'A' :: 'I' :: 'L' :: 'E' :: 'D' :: ' ' ::[]) ++
        (('R' :: 'E' :: 'A' :: 'S' :: 'O' :: 'N' :: '=' ::[]) ++
          (R ++ (' ' :: 'I' :: 'D' :: '=' ::d)))))) =
      some ([R], ' ' :: 'I' :: 'D' :: '=' ::d) := by
    rw [hsplit]
    apply matchSeq_dotstar_back
      (i := (' ' :: (t ++ (' ' :: 'F' :: 'A' :: 'I' :: 'L' :: 'E' :: 'D' :: ' ' ::[]))).length)
    · have hddot : d.all dotc = true := all_mono digitc_dotc hd
      have hRdot : R.all dotc = true := all_mono upperc_dotc hR
      simp only [List.all_cons, List.all_append, hddot, hRdot, ht]
      decide
    · simp [List.length_append]
    · intro m h1 h2
      rw [drop_append_ge (Nat.le_of_lt h1)]
      exact reasonK_fail_after hR hd _ (by omega)
    · rw [List.drop_left, matchSeq_lit_append]
      exact matchSeq_grpStar_sep hR (by decide) rfl
  rw [hline, anchoredSubmatch, orConnReasonField_eq, matchSeq_lit_append, hstar]
  exact ⟨_, rfl⟩

/-- `extractFingerprint` on a well-formed `NEWDESC` line `650 NEWDESC
$F` returns exactly `F`: no earlier position of the line carries 40
consecutive `[A-F0-9]` characters. -/
theorem extractFingerprint_newdesc {F : S} (h : F.length = 40)
    (hF : F.all hexc = true) :
    extractFingerprint (("650 NEWDESC $").data ++ F) = some F := by
  have hline : ("650 NEWDESC $").data ++ F =
      '6' :: '5' :: '0' :: ' ' :: 'N' :: 'E' :: 'W' :: 'D' :: 'E' :: 'S' :: 'C' :: ' ' :: '$' ::F := rfl
  have hF40 : F.take 40 = F := by
    rw [← h]
    exact List.take_length F
  have hFd : F.drop 40 = [] := by
    rw [← h]
    exact List.drop_length F
  have hmF : matchSeq fingerprintRe F = some ([F], []) := by
    have hl : (F.take 40).length = 40 := by rw [hF40, h]
    have ha : (F.take 40).all hexc = true := by rw [hF40]; exact hF
    have hk : matchSeq [] (F.drop 40) = some ([], []) := by
      rw [hFd]
      rfl
    have := matchSeq_grpRep_of hl ha hk
    rw [hF40] at this
    exact this
  have k0 : matchSeq fingerprintRe
      ('6' :: '5' :: '0' :: ' ' :: 'N' :: 'E' :: 'W' :: 'D' :: 'E' :: 'S' :: 'C' :: ' ' :: '$' ::F) = none :=
    @matchSeq_grpRep_none_bad 40 hexc [] ('6' :: '5' :: '0' ::[])
      ('N' :: 'E' :: 'W' :: 'D' :: 'E' :: 'S' :: 'C' :: ' ' :: '$' ::F) ' ' (by decide) (by decide)
  have k1 : matchSeq fingerprintRe
      ('5' :: '0' :: ' ' :: 'N' :: 'E' :: 'W' :: 'D' :: 'E' :: 'S' :: 'C' :: ' ' :: '$' ::F) = none :=
    @matchSeq_grpRep_none_bad 40 hexc [] ('5' :: '0' ::[])
      ('N' :: 'E' :: 'W' :: 'D' :: 'E' :: 'S' :: 'C' :: ' ' :: '$' ::F) ' ' (by decide) (by decide)
  have k2 : matchSeq fingerprintRe
      ('0' :: ' ' :: 'N' :: 'E' :: 'W' :: 'D' :: 'E' :: 'S' :: 'C' :: ' ' :: '$' ::F) = none :=
    @matchSeq_grpRep_none_bad 40 hexc [] ('0' ::[])
      ('N' :: 'E' :: 'W' :: 'D' :: 'E' :: 'S' :: 'C' :: ' ' :: '$' ::F) ' ' (by decide) (by decide)
  have k3 : matchSeq fingerprintRe
      (' ' :: 'N' :: 'E' :: 'W' :: 'D' :: 'E' :: 'S' :: 'C' :: ' ' :: '$' ::F) = none :=
    @matchSeq_grpRep_none_bad 40 hexc [] []
      ('N' :: 'E' :: 'W' :: 'D' :: 'E' :: 'S' :: 'C' :: ' ' :: '$' ::F) ' ' (by decide) (by decide)
  have k4 : matchSeq fingerprintRe
      ('N' :: 'E' :: 'W' :: 'D' :: 'E' :: 'S' :: 'C' :: ' ' :: '$' ::F) = none :=
    @matchSeq_grpRep_none_bad 40 hexc [] []
      ('E' :: 'W' :: 'D' :: 'E' :: 'S' :: 'C' :: ' ' :: '$' ::F) 'N' (by decide) (by decide)
  have k5 : matchSeq fingerprintRe
      ('E' :: 'W' :: 'D' :: 'E' :: 'S' :: 'C' :: ' ' :: '$' ::F) = none :=
    @matchSeq_grpRep_none_bad 40 hexc [] ('E' ::[])
      ('D' :: 'E' :: 'S' :: 'C' :: ' ' :: '$' ::F) 'W' (by decide) (by decide)
  have k6 : matchSeq fingerprintRe
      ('W' :: 'D' :: 'E' :: 'S' :: 'C' :: ' ' :: '$' ::F) = none :=
    @matchSeq_grpRep_none_bad 40 hexc [] []
      ('D' :: 'E' :: 'S' :: 'C' :: ' ' :: '$' ::F) 'W' (by decide) (by decide)
  have k7 : matchSeq fingerprintRe
      ('D' :: 'E' :: 'S' :: 'C' :: ' ' :: '$' ::F) = none :=
    @matchSeq_grpRep_none_bad 40 hexc [] ('D' :: 'E' ::[])
      ('C' :: ' ' :: '$' ::F) 'S' (by decide) (by decide)
  have k8 : matchSeq fingerprintRe ('E' :: 'S' :: 'C' :: ' ' :: '$' ::F) = none :=
    @matchSeq_grpRep_none_bad 40 hexc [] ('E' ::[])
      ('C' :: ' ' :: '$' ::F) 'S' (by decide) (by decide)
  have k9 : matchSeq fingerprintRe ('S' :: 'C' :: ' ' :: '$' ::F) = none :=
    @matchSeq_grpRep_none_bad 40 hexc [] []
      ('C' :: ' ' :: '$' ::F) 'S' (by decide) (by decide)
  have k10 : matchSeq fingerprintRe ('C' :: ' ' :: '$' ::F) = none :=
    @matchSeq_grpRep_none_bad 40 hexc [] ('C' ::[]) ('$' ::F) ' '
      (by decide) (by decide)
  have k11 : matchSeq fingerprintRe (' ' :: '$' ::F) = none :=
    @matchSeq_grpRep_none_bad 40 hexc [] [] ('$' ::F) ' ' (by decide) (by decide)
  have k12 : matchSeq fingerprintRe ('$' ::F) = none :=
    @matchSeq_grpRep_none_bad 40 hexc [] [] F '$' (by decide) (by decide)
  rw [extractFingerprint, hline, findAux_step k0, findAux_step k1,
    findAux_step k2, findAux_step k3, findAux_step k4, findAux_step k5,
    findAux_step k6, findAux_step k7, findAux_step k8, findAux_step k9,
    findAux_step k10, findAux_step k11, findAux_step k12, findAux_here hmF]
  simp

/-- `getFailureDesc` on a well-formed `FAILED` line returns the
`reasons` map entry of the `REASON` code. -/
theorem getFailureDesc_failed {t R d : S} (ht : t.all dotc = true)
    (hR : R.all upperc = true) (hd : d.all digitc = true) :
    getFailureDesc (("650 ORCONN ").data ++ t ++ (" FAILED REASON=").data ++
      R ++ (" ID=").data ++ d) = reasonsMap R := by
  obtain ⟨f, hf⟩ := anchored_reason_failed ht hR hd
  simp only [getFailureDesc, hf]

/-- `processOrConnLine` on a `LAUNCHED` event line: the connection ID
is remembered exactly when the event's target equals
`Target[:calcMatchLength(target, Target)]`; nothing else changes. -/
theorem processOrConn_launched {st : TorEventState} {t d : S} {i : Nat}
    (ht : t.all nspc = true) (hd : d.all digitc = true)
    (hi : atoi d = some i) :
    st.processOrConnLine
      (("650 ORCONN ").data ++ t ++ (" LAUNCHED ID=").data ++ d) =
      if t = st.Target.take (calcMatchLength t st.Target) then
        { st with ConnIds := insertId i st.ConnIds }
      else st := by
  obtain ⟨f, hf⟩ := findSubmatch_launched ht hd
  simp only [TorEventState.processOrConnLine, hf, hi]
  simp only [eq_true (show (('L' :: 'A' :: 'U' :: 'N' :: 'C' :: 'H' :: 'E' :: 'D' ::[]) : S) =
      ("LAUNCHED").data by decide), true_and,
    eq_false (show ¬((('L' :: 'A' :: 'U' :: 'N' :: 'C' :: 'H' :: 'E' :: 'D' ::[]) : S) =
      ("FAILED").data) by decide),
    eq_false (show ¬((('L' :: 'A' :: 'U' :: 'N' :: 'C' :: 'H' :: 'E' :: 'D' ::[]) : S) =
      ("CONNECTED").data) by decide),
    if_false, ite_self]

/-- `processOrConnLine` on a `FAILED` event line whose ID is tracked:
the state becomes `BridgeStateFailure` and the reason is the mapped
description of the `REASON` code (empty for an unknown code). -/
theorem processOrConn_failed {st : TorEventState} {t R d : S} {i : Nat}
    (h1 : t.all nspc = true) (h2 : t.all dotc = true)
    (hR : R.all upperc = true) (hd : d.all digitc = true)
    (hi : atoi d = some i) (hm : i ∈ st.ConnIds) :
    st.processOrConnLine
      (("650 ORCONN ").data ++ t ++ (" FAILED REASON=").data ++ R ++
        (" ID=").data ++ d) =
      { st with State := BridgeStateFailure,
                Reason := (reasonsMap R).getD [] } := by
  obtain ⟨f, hf⟩ := findSubmatch_failed h1 hR hd
  simp only [TorEventState.processOrConnLine, hf, hi]
  simp only [eq_false (show ¬((('F' :: 'A' :: 'I' :: 'L' :: 'E' :: 'D' ::[]) : S) =
      ("LAUNCHED").data) by decide), false_and, if_false,
    eq_true (show (('F' :: 'A' :: 'I' :: 'L' :: 'E' :: 'D' ::[]) : S) =
      ("FAILED").data by decide), if_true]
  rw [if_pos hm, getFailureDesc_failed h2 hR hd]

/-- `processNewDescLine` on a well-formed `NEWDESC` line: the state
becomes `BridgeStateSuccess` exactly when the carried fingerprint
equals the recorded one. -/
theorem processNewDesc_line {st : TorEventState} {F : S}
    (h : F.length = 40) (hF : F.all hexc = true) :
    st.processNewDescLine (("650 NEWDESC $").data ++ F) =
      if F = st.Fingerprint then { st with State := BridgeStateSuccess }
      else st := by
  simp only [TorEventState.processNewDescLine, extractFingerprint_newdesc h hF]

/-! ## Dispatch lemmas for `Feed` -/

theorem Feed_eq_orconn {st : TorEventState} {line : S}
    (h : ("650 ORCONN").data.isPrefixOf line = true) :
    st.Feed line = st.processOrConnLine line := by
  simp [TorEventState.Feed, h]

theorem Feed_eq_newdesc {st : TorEventState} {line : S}
    (h1 : ("650 ORCONN").data.isPrefixOf line = false)
    (h2 : ("650 NEWDESC").data.isPrefixOf line = true) :
    st.Feed line = st.processNewDescLine line := by
  simp [TorEventState.Feed, h1, h2]

theorem Feed_eq_other {st : TorEventState} {line : S}
    (h1 : ("650 ORCONN").data.isPrefixOf line = false)
    (h2 : ("650 NEWDESC").data.isPrefixOf line = false) :
    st.Feed line = st := by
  simp [TorEventState.Feed, h1, h2]

theorem mem_insertId {j i : Nat} {l : List Nat} :
    j ∈ insertId i l ↔ j = i ∨ j ∈ l := by
  unfold insertId
  split
  · constructor
    · exact fun h => Or.inr h
    · rintro (rfl | h)
      · assumption
      · exact h
  · simp [List.mem_cons]

/-! ## Claim theorems: the event state machine -/

/-- C1 (counterexample): the claim as stated is false.  With target
`T = "1.2.3.4:56"` in state Pending and a `LAUNCHED` event whose target
`t = "1.2.3.4:567"` agrees with `T` on the first
`min(len(t), len(T), 41) = 10` characters, the claim demands that ID 9
be added to `connIds`; the code compares the whole `t` against
`T[:10]`, which fails, and adds nothing. -/
theorem c1_counterexample :
    prefixAgree (("1.2.3.4:567").data) (("1.2.3.4:56").data) ∧
    (NewTorEventState (("1.2.3.4:56").data)).State = BridgeStatePending ∧
    ((NewTorEventState (("1.2.3.4:56").data)).Feed
      (("650 ORCONN 1.2.3.4:567 LAUNCHED ID=9").data)).ConnIds = [] := by
  refine ⟨by decide, by decide, by decide⟩

/-- C1 (amended): for a `TorEventState` with target `T`, feeding an
ORCONN LAUNCHED event line with target `t` and connection id `i` adds
`i` to `connIds` if and only if `t` equals the first
`min(len(t), len(T), 41)` characters of `T` (the code compares the
whole event target against that prefix of `T`, so a target longer than
the compared prefix never matches even if the prefixes agree). -/
theorem c1_launched_amended (st : TorEventState) (t d : S) (i : Nat)
    (hp : st.State = BridgeStatePending)
    (ht : t.all nspc = true) (hd : d.all digitc = true)
    (hi : atoi d = some i) :
    i ∈ ((st.Feed (("650 ORCONN ").data ++ t ++ (" LAUNCHED ID=").data ++ d)).ConnIds) ↔
      (t = st.Target.take (calcMatchLength t st.Target) ∨ i ∈ st.ConnIds) := by
  have hpre : ("650 ORCONN").data.isPrefixOf
      (("650 ORCONN ").data ++ t ++ (" LAUNCHED ID=").data ++ d) = true := rfl
  rw [Feed_eq_orconn hpre, processOrConn_launched ht hd hi]
  by_cases hc : t = st.Target.take (calcMatchLength t st.Target)
  · rw [if_pos hc]
    simp only [mem_insertId]
    exact ⟨fun _ => Or.inl hc, fun _ => Or.inl trivial⟩
  · rw [if_neg hc]
    simp [hc]

/-- C1 (witness): concrete instance of the amended claim with
`t = T = "1.2.3.4:56"` and ID 7: the ID is added. -/
theorem c1_witness :
    7 ∈ ((NewTorEventState (("1.2.3.4:56").data)).Feed
      (("650 ORCONN ").data ++ ("1.2.3.4:56").data ++
        (" LAUNCHED ID=").data ++ ("7").data)).ConnIds := by
  have h := c1_launched_amended (NewTorEventState (("1.2.3.4:56").data))
    (("1.2.3.4:56").data) (("7").data) 7 (by decide) (by decide) (by decide)
    (by decide)
  exact h.mpr (Or.inl (by decide))

/-- C2 (counterexample): the claim as stated is false.  With target
`T = "$0123…4567"` in state Pending and no `CONNECTED` event seen (the
recorded fingerprint is empty), feeding `650 NEWDESC $0123…4567`
carries exactly `F = T[1:]`, so the claim demands a transition to
Success; the code compares `F` only against the recorded fingerprint
and stays Pending. -/
theorem c2_counterexample :
    extractFingerprint
      (("650 NEWDESC $0123456789ABCDEF0123456789ABCDEF01234567").data) =
      some ((("$0123456789ABCDEF0123456789ABCDEF01234567").data).drop 1) ∧
    (NewTorEventState
      (("$0123456789ABCDEF0123456789ABCDEF01234567").data)).Fingerprint = [] ∧
    ((NewTorEventState
      (("$0123456789ABCDEF0123456789ABCDEF01234567").data)).Feed
      (("650 NEWDESC $0123456789ABCDEF0123456789ABCDEF01234567").data)).State =
      BridgeStatePending := by
  refine ⟨by decide, by decide, by decide⟩

/-- C2 (amended): for a `TorEventState` in state Pending, feeding a
NEWDESC event line carrying fingerprint `F` transitions the state to
Success exactly when `F` equals the fingerprint recorded from an
earlier CONNECTED event; the target plays no role. -/
theorem c2_newdesc_amended (st : TorEventState) (F : S)
    (hp : st.State = BridgeStatePending)
    (h4 : F.length = 40) (hF : F.all hexc = true) :
    (st.Feed (("650 NEWDESC $").data ++ F)).State = BridgeStateSuccess ↔
      F = st.Fingerprint := by
  have hp1 : ("650 ORCONN").data.isPrefixOf (("650 NEWDESC $").data ++ F) =
      false := rfl
  have hp2 : ("650 NEWDESC").data.isPrefixOf (("650 NEWDESC $").data ++ F) =
      true := rfl
  rw [Feed_eq_newdesc hp1 hp2, processNewDesc_line h4 hF]
  by_cases hc : F = st.Fingerprint
  · simp [hc]
  · simp [hc, hp, BridgeStatePending, BridgeStateSuccess]

/-- C2 (witness): concrete instance of the amended claim: with the
fingerprint recorded, the matching NEWDESC moves the machine to
Success. -/
theorem c2_witness :
    (TorEventState.Feed
      { ConnIds := [69], State := BridgeStatePending, Reason := [],
        Fingerprint := (("0123456789ABCDEF0123456789ABCDEF01234567").data),
        Target := (("1.2.3.4:56").data), TestId := 0 }
      (("650 NEWDESC $").data ++
        ("0123456789ABCDEF0123456789ABCDEF01234567").data)).State =
      BridgeStateSuccess := by
  have h := c2_newdesc_amended
    { ConnIds := [69], State := BridgeStatePending, Reason := [],
      Fingerprint := (("0123456789ABCDEF0123456789ABCDEF01234567").data),
      Target := (("1.2.3.4:56").data), TestId := 0 }
    (("0123456789ABCDEF0123456789ABCDEF01234567").data)
    (by decide) (by decide) (by decide)
  exact h.mpr rfl


theorem feed_state_cases (st : TorEventState) (line : S) :
    (st.Feed line).State = st.State ∨
    (st.Feed line).State = BridgeStateSuccess ∨
    (st.Feed line).State = BridgeStateFailure := by
  unfold TorEventState.Feed TorEventState.processOrConnLine
    TorEventState.processNewDescLine
  dsimp only
  repeat' split
  all_goals first
    | exact Or.inl rfl
    | exact Or.inr (Or.inl rfl)
    | exact Or.inr (Or.inr rfl)

/-- C3 (counterexample): the claim as stated is false.  A machine
driven to the terminal state Success (LAUNCHED, CONNECTED, NEWDESC)
moves to Failure when fed a further ORCONN FAILED event whose
connection ID it tracks: Success is not absorbing. -/
theorem c3_counterexample :
    ((((NewTorEventState (("146.57.248.225:22").data)).Feed
      (("650 ORCONN 146.57.248.225:22 LAUNCHED ID=69").data)).Feed
      (("650 ORCONN $10A6CD36A537FCE513A322361547444B393989F0 CONNECTED ID=69").data)).Feed
      (("650 NEWDESC $10A6CD36A537FCE513A322361547444B393989F0").data)).State =
      BridgeStateSuccess ∧
    (((((NewTorEventState (("146.57.248.225:22").data)).Feed
      (("650 ORCONN 146.57.248.225:22 LAUNCHED ID=69").data)).Feed
      (("650 ORCONN $10A6CD36A537FCE513A322361547444B393989F0 CONNECTED ID=69").data)).Feed
      (("650 NEWDESC $10A6CD36A537FCE513A322361547444B393989F0").data)).Feed
      (("650 ORCONN 146.57.248.225:22 FAILED REASON=DONE ID=69").data)).State =
      BridgeStateFailure := by
  refine ⟨by decide, by decide⟩

/-- C3 (amended): once a `TorEventState` has left Pending it never
returns to Pending — every fed line leaves the state terminal — but
the terminal states are not absorbing: an ORCONN FAILED event with a
tracked connection ID moves Success to Failure, and a NEWDESC event
matching the recorded fingerprint moves Failure to Success. -/
theorem c3_terminal_amended (st : TorEventState) (line : S)
    (h : st.State ≠ BridgeStatePending) :
    (st.Feed line).State ≠ BridgeStatePending := by
  rcases feed_state_cases st line with hc | hc | hc
  · rw [hc]
    exact h
  · rw [hc]
    decide
  · rw [hc]
    decide

/-- C3 (witness): concrete instance of the amended claim: a machine in
Failure stays non-Pending when fed a further line. -/
theorem c3_witness :
    (TorEventState.Feed
      { ConnIds := [69], State := BridgeStateFailure, Reason := [],
        Fingerprint := [], Target := (("146.57.248.225:22").data), TestId := 0 }
      (("650 ORCONN 146.57.248.225:22 CLOSED REASON=DONE ID=69").data)).State ≠
      BridgeStatePending := by
  have h := c3_terminal_amended
    { ConnIds := [69], State := BridgeStateFailure, Reason := [],
      Fingerprint := [], Target := (("146.57.248.225:22").data), TestId := 0 }
    (("650 ORCONN 146.57.248.225:22 CLOSED REASON=DONE ID=69").data)
    (by decide)
  exact h

/-- C4: for a `TorEventState` in state Pending, feeding an ORCONN
FAILED event whose connection ID is tracked moves the state to Failure
and sets the reason to the fixed human string of the event's REASON
code — `(reasonsMap R).getD ""` — so a known code yields its mapped
description and an unknown code yields the empty string while the
Failure transition still occurs. -/
theorem c4_failed_reason (st : TorEventState) (t R d : S) (i : Nat)
    (hp : st.State = BridgeStatePending)
    (h1 : t.all nspc = true) (h2 : t.all dotc = true)
    (hR : R.all upperc = true) (hd : d.all digitc = true)
    (hi : atoi d = some i) (hm : i ∈ st.ConnIds) :
    (st.Feed (("650 ORCONN ").data ++ t ++ (" FAILED REASON=").data ++ R ++
      (" ID=").data ++ d)).State = BridgeStateFailure ∧
    (st.Feed (("650 ORCONN ").data ++ t ++ (" FAILED REASON=").data ++ R ++
      (" ID=").data ++ d)).Reason = (reasonsMap R).getD [] := by
  have hpre : ("650 ORCONN").data.isPrefixOf
      (("650 ORCONN ").data ++ t ++ (" FAILED REASON=").data ++ R ++
        (" ID=").data ++ d) = true := rfl
  rw [Feed_eq_orconn hpre, processOrConn_failed h1 h2 hR hd hi hm]
  exact ⟨rfl, rfl⟩

/-- C4 (witness): the spec's own scenario — after `LAUNCHED ID=69` on
target `146.57.248.225:22`, the `FAILED REASON=DONE ID=69` event moves
the machine to Failure with reason "The OR connection has shut down
cleanly.". -/
theorem c4_witness :
    (((NewTorEventState (("146.57.248.225:22").data)).Feed
      (("650 ORCONN 146.57.248.225:22 LAUNCHED ID=69").data)).Feed
      (("650 ORCONN ").data ++ ("146.57.248.225:22").data ++
        (" FAILED REASON=").data ++ ("DONE").data ++ (" ID=").data ++
        ("69").data)).State = BridgeStateFailure ∧
    (((NewTorEventState (("146.57.248.225:22").data)).Feed
      (("650 ORCONN 146.57.248.225:22 LAUNCHED ID=69").data)).Feed
      (("650 ORCONN ").data ++ ("146.57.248.225:22").data ++
        (" FAILED REASON=").data ++ ("DONE").data ++ (" ID=").data ++
        ("69").data)).Reason =
      ("The OR connection has shut down cleanly.").data := by
  have h := c4_failed_reason
    ((NewTorEventState (("146.57.248.225:22").data)).Feed
      (("650 ORCONN 146.57.248.225:22 LAUNCHED ID=69").data))
    (("146.57.248.225:22").data) (("DONE").data) (("69").data) 69
    (by decide) (by decide) (by decide) (by decide) (by decide) (by decide)
    (by decide)
  refine ⟨h.1, ?_⟩
  rw [h.2]
  decide

/-- C5: `Feed` is a total function of the model (it cannot crash: the
only indexing operation of the Go code, `t.Target[:matchLen]`, is in
bounds because `calcMatchLength` never exceeds either argument's
length), and a line whose regex submatch count disagrees with the
expected arity leaves the state completely unchanged: an ORCONN line
whose `OrConnFields` submatch count is not 4, a NEWDESC line carrying
no fingerprint, and a line matching neither dispatch pattern. -/
theorem c5_crash_free (st : TorEventState) (line : S) (a b : S) :
    calcMatchLength a b ≤ min a.length b.length ∧
    (("650 ORCONN").data.isPrefixOf line = true →
      (findSubmatch orConnFields line).length ≠ 4 → st.Feed line = st) ∧
    (("650 ORCONN").data.isPrefixOf line = false →
      ("650 NEWDESC").data.isPrefixOf line = true →
      extractFingerprint line = none → st.Feed line = st) ∧
    (("650 ORCONN").data.isPrefixOf line = false →
      ("650 NEWDESC").data.isPrefixOf line = false → st.Feed line = st) := by
  refine ⟨?_, ?_, ?_, ?_⟩
  · unfold calcMatchLength BridgeFingerprintLen
    dsimp only
    split <;> split <;> omega
  · intro h1 h2
    rw [Feed_eq_orconn h1]
    unfold TorEventState.processOrConnLine
    split
    · rename_i heq
      rw [heq] at h2
      exact absurd rfl h2
    · rfl
  · intro h1 h2 h3
    rw [Feed_eq_newdesc h1 h2]
    unfold TorEventState.processNewDescLine
    rw [h3]
  · intro h1 h2
    exact Feed_eq_other h1 h2

/-- C5 (witness): concrete instances — the bound on `calcMatchLength`,
a malformed ORCONN line (no `ID=` field, 0 submatches), a NEWDESC line
with no 40-hex fingerprint, and an unrelated line, all leaving a
concrete state unchanged. -/
theorem c5_witness :
    calcMatchLength (("abc").data) (("de").data) ≤ min 3 2 ∧
    (NewTorEventState (("1.2.3.4:1").data)).Feed (("650 ORCONN x").data) =
      NewTorEventState (("1.2.3.4:1").data) ∧
    (NewTorEventState (("1.2.3.4:1").data)).Feed
      (("650 NEWDESC $tooShort").data) = NewTorEventState (("1.2.3.4:1").data) ∧
    (NewTorEventState (("1.2.3.4:1").data)).Feed (("hello world").data) =
      NewTorEventState (("1.2.3.4:1").data) := by
  refine ⟨?_, ?_, ?_, ?_⟩
  · exact (c5_crash_free (NewTorEventState (("1.2.3.4:1").data))
      (("x").data) (("abc").data) (("de").data)).1
  · exact (c5_crash_free (NewTorEventState (("1.2.3.4:1").data))
      (("650 ORCONN x").data) [] []).2.1 (by decide) (by decide)
  · exact (c5_crash_free (NewTorEventState (("1.2.3.4:1").data))
      (("650 NEWDESC $tooShort").data) [] []).2.2.1 (by decide) (by decide)
      (by decide)
  · exact (c5_crash_free (NewTorEventState (("1.2.3.4:1").data))
      (("hello world").data) [] []).2.2.2 (by decide) (by decide)

/-! ## Claim theorems: the result cache -/

theorem keysOf_cons {α : Type} (p : S × α) (l : List (S × α)) :
    keysOf (p :: l) = p.1 :: keysOf l := rfl

theorem keysOf_append {α : Type} (a b : List (S × α)) :
    keysOf (a ++ b) = keysOf a ++ keysOf b := by
  unfold keysOf
  exact List.map_append _ _ _

instance entriesFresh_dec (tc : TestCache) (w : Int) :
    Decidable (entriesFresh tc w) := by
  unfold entriesFresh
  infer_instance

theorem lookupAssoc_mem {α : Type} {l : List (S × α)} {k : S} {v : α}
    (h : lookupAssoc l k = some v) : (k, v) ∈ l := by
  induction l with
  | nil => exact absurd h (by simp [lookupAssoc])
  | cons p rest ih =>
    obtain ⟨k', v'⟩ := p
    by_cases hk : k' = k
    · subst hk
      rw [lookupAssoc, if_pos rfl] at h
      injection h with h
      subst h
      exact List.mem_cons_self _ _
    · rw [lookupAssoc, if_neg hk] at h
      exact List.mem_cons_of_mem _ (ih h)

theorem mem_setAssoc {α : Type} {l : List (S × α)} {k : S} {v : α} {q : S × α}
    (h : q ∈ setAssoc l k v) : q = (k, v) ∨ q ∈ l := by
  induction l with
  | nil =>
    rw [setAssoc] at h
    rcases List.mem_cons.mp h with h | h
    · exact Or.inl h
    · exact absurd h (List.not_mem_nil q)
  | cons p rest ih =>
    obtain ⟨k', v'⟩ := p
    by_cases hk : k' = k
    · subst hk
      rw [setAssoc, if_pos rfl] at h
      rcases List.mem_cons.mp h with h | h
      · exact Or.inl h
      · exact Or.inr (List.mem_cons_of_mem _ h)
    · rw [setAssoc, if_neg hk] at h
      rcases List.mem_cons.mp h with h | h
      · exact Or.inr (h ▸ List.mem_cons_self _ _)
      · rcases ih h with h | h
        · exact Or.inl h
        · exact Or.inr (List.mem_cons_of_mem _ h)

theorem fresh_of_filter (tc : TestCache) (w : Int) :
    ∀ p ∈ tc.Entries.filter (fun p => !(p.2.Time < w - tc.entryTimeout)),
      p.2.Time ≥ w - tc.entryTimeout := by
  intro p hp
  have h2 := (List.mem_filter.mp hp).2
  have h3 : ¬ (p.2.Time < w - tc.entryTimeout) := by simpa using h2
  omega

/-- C7 (counterexample): the claim as stated is false.  Starting from
an empty cache with a 1-tick TTL, `AddEntry` stores an entry tested at
time 0; observing the cache at time 10 with `FracFunctional` sees the
expired entry (the fraction is 1, not the 0 a pruned cache would give):
`AddEntry`, `FracFunctional` and `WriteToDisk` never prune, so an
observation at time T can see entries with `time < T − TTL`. -/
theorem c7_counterexample :
    ¬ entriesFresh
      (TestCache.AddEntry ⟨[], 1⟩ (("1.2.3.4:5678").data) none 0) 10 ∧
    (TestCache.AddEntry ⟨[], 1⟩ (("1.2.3.4:5678").data) none 0).FracFunctional
      = 1 := by
  constructor
  · decide
  · have h : (TestCache.AddEntry ⟨[], 1⟩ (("1.2.3.4:5678").data) none 0).Entries =
        [((("1.2.3.4:5678").data), ⟨(("1.2.3.4:5678").data), [], 0, 0⟩)] := by
      decide
    unfold TestCache.FracFunctional
    rw [h]
    norm_num

/-- C7 (amended): only `IsCached` prunes.  Immediately after any
`IsCached` call at time T, every entry of the cache satisfies
`E.time ≥ T − TTL`; the other operations (`AddEntry`,
`FracFunctional`, `WriteToDisk`) do not prune and may observe older
entries. -/
theorem c7_iscached_prunes (tc : TestCache) (w : Int) (l : S) :
    entriesFresh (tc.IsCached w l).1 w := by
  unfold TestCache.IsCached
  rcases hap : bridgeLineToAddrPort l with _ | ap <;> simp only [hap]
  · exact fun p hp => fresh_of_filter tc w p hp
  · rcases hlk : lookupAssoc
        (tc.Entries.filter (fun p => !(p.2.Time < w - tc.entryTimeout))) ap
      with _ | e <;> simp only [hlk]
    · exact fun p hp => fresh_of_filter tc w p hp
    · intro p hp
      rcases mem_setAssoc hp with hq | hq
      · subst hq
        exact fresh_of_filter tc w (ap, e) (lookupAssoc_mem hlk)
      · exact fresh_of_filter tc w p hq

theorem setAssoc_append_of_not_mem {α : Type} {l : List (S × α)} {k : S}
    {v : α} (h : k ∉ keysOf l) : setAssoc l k v = l ++ [(k, v)] := by
  induction l with
  | nil => rfl
  | cons p rest ih =>
    obtain ⟨k', v'⟩ := p
    have hk : k' ≠ k := fun he => h (by
      rw [keysOf_cons]
      exact he ▸ List.mem_cons_self _ _)
    have h' : k ∉ keysOf rest := fun hm => h (by
      rw [keysOf_cons]
      exact List.mem_cons_of_mem _ hm)
    rw [setAssoc, if_neg hk, ih h', List.cons_append]

theorem foldl_setAssoc_fresh {α : Type} (l : List (S × α)) :
    ∀ a : List (S × α), (∀ k ∈ keysOf l, k ∉ keysOf a) → (keysOf l).Nodup →
      l.foldl (fun es p => setAssoc es p.1 p.2) a = a ++ l := by
  induction l with
  | nil =>
    intro a _ _
    simp
  | cons p rest ih =>
    intro a hdisj hnd
    obtain ⟨k, v⟩ := p
    rw [keysOf_cons] at hdisj hnd
    have hk : k ∉ keysOf a := hdisj k (List.mem_cons_self _ _)
    have hnd' : (keysOf rest).Nodup := (List.nodup_cons.mp hnd).2
    have hknr : k ∉ keysOf rest := (List.nodup_cons.mp hnd).1
    have hdisj' : ∀ w ∈ keysOf rest, w ∉ keysOf (a ++ [(k, v)]) := by
      intro w hw hmem
      rw [keysOf_append] at hmem
      rcases List.mem_append.mp hmem with hm | hm
      · exact hdisj w (List.mem_cons_of_mem _ hw) hm
      · have hkk : w = k := by
          have : keysOf [(k, v)] = [k] := rfl
          rw [this] at hm
          exact List.mem_singleton.mp hm
        exact hknr (hkk ▸ hw)
    rw [List.foldl_cons, setAssoc_append_of_not_mem hk, ih _ hdisj' hnd',
      List.append_assoc]
    rfl

/-- C9: writing the cache to disk and reading the file back into a
cache whose entry map is empty (as at program start-up) reproduces the
entry map exactly.  The gob encoding transmits the `Entries` pairs and
the decoder stores each received pair into the receiver's map, so with
distinct keys (a Go map invariant) the round-trip is the identity on
the map; the unexported `entryTimeout` is not serialised. -/
theorem c9_roundtrip (tc c : TestCache) (h : (keysOf tc.Entries).Nodup)
    (hc : c.Entries = []) :
    (c.ReadFromDisk tc.WriteToDisk).Entries = tc.Entries := by
  unfold TestCache.ReadFromDisk TestCache.WriteToDisk
  dsimp only
  rw [hc, foldl_setAssoc_fresh tc.Entries []
    (fun k _ hm => List.not_mem_nil k hm) h, List.nil_append]

/-- C9 (witness): a concrete two-entry cache survives the round-trip. -/
theorem c9_witness :
    (TestCache.ReadFromDisk ⟨[], 7⟩
      (TestCache.WriteToDisk
        ⟨[((("1.1.1.1:1").data), ⟨[], [], 3, 0⟩),
          ((("2.2.2.2:2").data), ⟨[], ("boom").data, 4, 1⟩)], 7⟩)).Entries =
      [((("1.1.1.1:1").data), ⟨[], [], 3, 0⟩),
       ((("2.2.2.2:2").data), ⟨[], ("boom").data, 4, 1⟩)] := by
  exact c9_roundtrip
    ⟨[((("1.1.1.1:1").data), ⟨[], [], 3, 0⟩),
      ((("2.2.2.2:2").data), ⟨[], ("boom").data, 4, 1⟩)], 7⟩
    ⟨[], 7⟩ (by decide) rfl

/-- C10: when no addr:port token (or no hashed bridge identifier) can
be derived from the bridge line, `AddEntry` returns without touching
the cache: both early returns leave the entry map exactly unchanged,
and the Go function has no error return through which anything could
be signalled. -/
theorem c10_addentry_silent (tc : TestCache) (l : S) (r : Option S)
    (w : Int)
    (h : bridgeLineToAddrPort l = none ∨ getHashedBridgeIdentifier l = none) :
    tc.AddEntry l r w = tc := by
  unfold TestCache.AddEntry
  rcases hap : bridgeLineToAddrPort l with _ | ap <;> simp only [hap]
  rcases h with h | h
  · exact absurd hap (h ▸ by simp)
  · rw [h]

/-- C10 (witness): a line with no addr:port token leaves a concrete
cache unchanged. -/
theorem c10_witness :
    TestCache.AddEntry ⟨[((("9.9.9.9:9").data), ⟨[], [], 3, 0⟩)], 7⟩
      (("bogus-bridge-line").data) none 5 =
      ⟨[((("9.9.9.9:9").data), ⟨[], [], 3, 0⟩)], 7⟩ := by
  exact c10_addentry_silent _ _ _ _ (Or.inl (by decide))

/-! ## Claim theorems: testBridgeLines -/

theorem keysOf_setAssoc_not_mem {α : Type} {l : List (S × α)} {k : S} {v : α}
    (h : k ∉ keysOf l) : keysOf (setAssoc l k v) = keysOf l ++ [k] := by
  rw [setAssoc_append_of_not_mem h, keysOf_append]
  rfl

theorem length_setAssoc_not_mem {α : Type} {l : List (S × α)} {k : S} {v : α}
    (h : k ∉ keysOf l) : (setAssoc l k v).length = l.length + 1 := by
  rw [setAssoc_append_of_not_mem h, List.length_append]
  rfl

/-- Invariant of the cache-lookup loop of `testBridgeLines`: starting
from pairwise-fresh accumulators, the loop adds every processed line
either to the verdict map or to the remainder, keeping the two
disjoint and duplicate-free. -/
theorem fold1_inv (w : Int) :
    ∀ (L : List S) (tc : TestCache) (res : List (S × BridgeTest)) (rem : List S),
      (keysOf res).Nodup → rem.Nodup → (∀ x ∈ rem, x ∉ keysOf res) →
      (∀ x ∈ L, x ∉ keysOf res ∧ x ∉ rem) → L.Nodup →
      ((L.foldl (testStep w) (tc, res, rem)).2.1.length +
        (L.foldl (testStep w) (tc, res, rem)).2.2.length =
        res.length + rem.length + L.length) ∧
      (keysOf (L.foldl (testStep w) (tc, res, rem)).2.1).Nodup ∧
      (L.foldl (testStep w) (tc, res, rem)).2.2.Nodup ∧
      (∀ x ∈ (L.foldl (testStep w) (tc, res, rem)).2.2,
        x ∉ keysOf (L.foldl (testStep w) (tc, res, rem)).2.1) := by
  intro L
  induction L with
  | nil =>
    intro tc res rem h1 h2 h3 _ _
    exact ⟨by simp [keysOf], h1, h2, h3⟩
  | cons l L' ih =>
    intro tc res rem h1 h2 h3 h4 h5
    have hl := h4 l (List.mem_cons_self _ _)
    have hlL : l ∉ L' := (List.nodup_cons.mp h5).1
    have h5' : L'.Nodup := (List.nodup_cons.mp h5).2
    rw [List.foldl_cons]
    rcases hic : tc.IsCached w l with ⟨tc', eopt⟩
    cases eopt with
    | some e =>
      have hstep : testStep w (tc, res, rem) l =
          (tc', setAssoc res l
            { Functional := e.Error = [], LastTested := e.Time,
              Error := e.Error }, rem) := by
        unfold testStep
        rw [hic]
      rw [hstep]
      have hkeys : keysOf (setAssoc res l
          { Functional := e.Error = [], LastTested := e.Time,
            Error := e.Error }) = keysOf res ++ [l] :=
        keysOf_setAssoc_not_mem hl.1
      have h1' : (keysOf (setAssoc res l
          { Functional := e.Error = [], LastTested := e.Time,
            Error := e.Error })).Nodup := by
        rw [hkeys]
        simp [List.nodup_append, h1, hl.1]
      have h3' : ∀ x ∈ rem, x ∉ keysOf (setAssoc res l
          { Functional := e.Error = [], LastTested := e.Time,
            Error := e.Error }) := by
        intro x hx
        rw [hkeys]
        intro hmem
        rcases List.mem_append.mp hmem with hm | hm
        · exact h3 x hx hm
        · have : x = l := List.mem_singleton.mp hm
          exact hl.2 (this ▸ hx)
      have h4' : ∀ x ∈ L', x ∉ keysOf (setAssoc res l
          { Functional := e.Error = [], LastTested := e.Time,
            Error := e.Error }) ∧ x ∉ rem := by
        intro x hx
        refine ⟨?_, (h4 x (List.mem_cons_of_mem _ hx)).2⟩
        rw [hkeys]
        intro hmem
        rcases List.mem_append.mp hmem with hm | hm
        · exact (h4 x (List.mem_cons_of_mem _ hx)).1 hm
        · exact hlL ((List.mem_singleton.mp hm) ▸ hx)
      obtain ⟨ha, hb, hc, hd⟩ := ih tc' _ rem h1' h2 h3' h4' h5'
      refine ⟨?_, hb, hc, hd⟩
      rw [ha, length_setAssoc_not_mem hl.1]
      simp [List.length_cons]
      omega
    | none =>
      have hstep : testStep w (tc, res, rem) l = (tc', res, rem ++ [l]) := by
        unfold testStep
        rw [hic]
      rw [hstep]
      have h2' : (rem ++ [l]).Nodup := by
        simp [List.nodup_append, h2, hl.2]
      have h3' : ∀ x ∈ rem ++ [l], x ∉ keysOf res := by
        intro x hx
        rcases List.mem_append.mp hx with hm | hm
        · exact h3 x hm
        · exact ((List.mem_singleton.mp hm) ▸ hl.1)
      have h4' : ∀ x ∈ L', x ∉ keysOf res ∧ x ∉ rem ++ [l] := by
        intro x hx
        refine ⟨(h4 x (List.mem_cons_of_mem _ hx)).1, ?_⟩
        intro hmem
        rcases List.mem_append.mp hmem with hm | hm
        · exact (h4 x (List.mem_cons_of_mem _ hx)).2 hm
        · exact hlL ((List.mem_singleton.mp hm) ▸ hx)
      obtain ⟨ha, hb, hc, hd⟩ := ih tc' res _ h1 h2' h3' h4' h5'
      refine ⟨?_, hb, hc, hd⟩
      rw [ha, List.length_append]
      simp [List.length_cons]
      omega

theorem fold2_len (v : S → BridgeTest) :
    ∀ (L : List S) (a : List (S × BridgeTest)),
      (∀ x ∈ L, x ∉ keysOf a) → L.Nodup →
      (L.foldl (fun m l => setAssoc m l (v l)) a).length = a.length + L.length ∧
      keysOf (L.foldl (fun m l => setAssoc m l (v l)) a) = keysOf a ++ L := by
  intro L
  induction L with
  | nil =>
    intro a _ _
    simp
  | cons l L' ih =>
    intro a hfresh hnd
    have hl : l ∉ keysOf a := hfresh l (List.mem_cons_self _ _)
    have hlL : l ∉ L' := (List.nodup_cons.mp hnd).1
    rw [List.foldl_cons]
    have hfresh' : ∀ x ∈ L', x ∉ keysOf (setAssoc a l (v l)) := by
      intro x hx
      rw [keysOf_setAssoc_not_mem hl]
      intro hmem
      rcases List.mem_append.mp hmem with hm | hm
      · exact hfresh x (List.mem_cons_of_mem _ hx) hm
      · exact hlL ((List.mem_singleton.mp hm) ▸ hx)
    obtain ⟨ha, hb⟩ := ih (setAssoc a l (v l)) hfresh' (List.nodup_cons.mp hnd).2
    constructor
    · rw [ha, length_setAssoc_not_mem hl]
      simp [List.length_cons]
      omega
    · rw [hb, keysOf_setAssoc_not_mem hl, List.append_assoc]
      rfl

theorem foldl_pair_snd :
    ∀ (L : List (S × BridgeTest)) (tc : TestCache) (a : List (S × BridgeTest)),
      (L.foldl (fun st p =>
        (st.1.AddEntry p.1 (some p.2.Error) p.2.LastTested,
         setAssoc st.2 p.1 p.2)) (tc, a)).2 =
        L.foldl (fun m p => setAssoc m p.1 p.2) a := by
  intro L
  induction L with
  | nil =>
    intro tc a
    rfl
  | cons p L' ih =>
    intro tc a
    rw [List.foldl_cons, List.foldl_cons]
    exact ih _ _

/-- C8 (counterexample): the claim as stated is false.  `TestResult`'s
`bridges` field is a map keyed by the bridge line, so a batch
containing the same line twice produces a single verdict: with
`"1.2.3.4:5678"` cached and submitted twice, `|result.bridges| = 1`
although the batch has 2 lines. -/
theorem c8_counterexample :
    (testBridgeLines (fun _ => ⟨false, 0, []⟩) [] 10
      ⟨[((("1.2.3.4:5678").data), ⟨[], [], 10, 0⟩)], 100⟩
      [(("1.2.3.4:5678").data), (("1.2.3.4:5678").data)]).2.Bridges.length = 1 ∧
    ([(("1.2.3.4:5678").data), (("1.2.3.4:5678").data)] : List S).length = 2 := by
  refine ⟨by decide, by decide⟩

/-- C8 (amended): for every batch of pairwise-distinct bridge lines,
`testBridgeLines` returns exactly one verdict per input line:
`|result.bridges| = |bridgeLines|`.  (Duplicate lines collapse onto one
map key, which is the only failure mode of the original claim.) -/
theorem c8_batch_size_amended (v : S → BridgeTest) (q : S) (w : Int)
    (tc : TestCache) (L : List S) (h : L.Nodup) :
    (testBridgeLines v q w tc L).2.Bridges.length = L.length := by
  obtain ⟨ha, hb, hc, hd⟩ := fold1_inv w L tc [] []
    (by simp [keysOf]) (by simp) (by simp) (by simp [keysOf]) h
  unfold testBridgeLines
  dsimp only
  by_cases hrem : (L.foldl (testStep w) (tc, [], [])).2.2.isEmpty
  · rw [if_pos hrem]
    have hnil : (L.foldl (testStep w) (tc, [], [])).2.2 = [] :=
      List.isEmpty_iff.mp hrem
    rw [hnil] at ha
    simpa [keysOf] using ha
  · rw [if_neg hrem]
    dsimp only
    rw [foldl_pair_snd]
    have hpb : (torTestBridgeLines v q
        (L.foldl (testStep w) (tc, [], [])).2.2).Bridges =
        (L.foldl (testStep w) (tc, [], [])).2.2.foldl
          (fun m l => setAssoc m l (v l)) [] := rfl
    rw [hpb]
    obtain ⟨h2a, h2b⟩ := fold2_len v (L.foldl (testStep w) (tc, [], [])).2.2 []
      (by simp [keysOf]) hc
    have hdisj : ∀ k ∈ keysOf ((L.foldl (testStep w) (tc, [], [])).2.2.foldl
        (fun m l => setAssoc m l (v l)) []),
        k ∉ keysOf (L.foldl (testStep w) (tc, [], [])).2.1 := by
      rw [h2b]
      intro k hk
      exact hd k (by simpa [keysOf] using hk)
    have hnd2 : (keysOf ((L.foldl (testStep w) (tc, [], [])).2.2.foldl
        (fun m l => setAssoc m l (v l)) [])).Nodup := by
      rw [h2b]
      simpa [keysOf] using hc
    rw [foldl_setAssoc_fresh _ _ hdisj hnd2, List.length_append, h2a]
    simp only [List.length_nil] at ha ⊢
    omega

/-- C8 (witness): a two-line batch of distinct lines (one cached, one
going to the dispatcher) yields exactly two verdicts. -/
theorem c8_witness :
    (testBridgeLines (fun _ => ⟨false, 0, []⟩) [] 10
      ⟨[((("1.2.3.4:5678").data), ⟨[], [], 10, 0⟩)], 100⟩
      [(("1.2.3.4:5678").data), (("5.6.7.8:9").data)]).2.Bridges.length = 2 := by
  have h := c8_batch_size_amended (fun _ => ⟨false, 0, []⟩) [] 10
    ⟨[((("1.2.3.4:5678").data), ⟨[], [], 10, 0⟩)], 100⟩
    [(("1.2.3.4:5678").data), (("5.6.7.8:9").data)] (by decide)
  exact h

/-! ## Soundness of the regex engine (C6) -/

/-- A class item consumes exactly one matching character. -/
theorem matchSeq_cls_sound {p : Char → Bool} {rest : List RItem} {s : S}
    {caps : List S} {r : S}
    (h : matchSeq (RItem.cls p :: rest) s = some (caps, r)) :
    ∃ c s', s = c :: s' ∧ p c = true ∧ matchSeq rest s' = some (caps, r) := by
  cases s with
  | nil => simp [matchSeq] at h
  | cons c s' =>
    by_cases hc : p c = true
    · rw [matchSeq_cls_pos hc] at h
      exact ⟨c, s', rfl, hc, h⟩
    · rw [show matchSeq (RItem.cls p :: rest) (c :: s') = none from by
        simp only [Bool.not_eq_true] at hc; simp [matchSeq, hc]] at h
      exact absurd h (by simp)

/-- A literal item consumes exactly its own characters. -/
theorem matchSeq_lit_sound {l : S} {rest : List RItem} {s : S}
    {caps : List S} {r : S}
    (h : matchSeq (RItem.lit l :: rest) s = some (caps, r)) :
    ∃ s', s = l ++ s' ∧ matchSeq rest s' = some (caps, r) := by
  by_cases hp : l.isPrefixOf s = true
  · rw [List.isPrefixOf_iff_prefix] at hp
    obtain ⟨s', rfl⟩ := hp
    rw [matchSeq_lit_append] at h
    exact ⟨s', rfl, h⟩
  · have hp' : l.isPrefixOf s = false := by
      cases hpf : l.isPrefixOf s
      · rfl
      · exact absurd hpf hp
    rw [matchSeq_lit_none hp'] at h
    exact absurd h (by simp)

/-- A star item consumes some run of class characters, within its bound
when one is given, and the rest of the items match the remainder. -/
theorem matchSeq_star_sound {b : Option Nat} {p : Char → Bool}
    {rest : List RItem} {s : S} {caps : List S} {r : S}
    (h : matchSeq (RItem.star b p :: rest) s = some (caps, r)) :
    ∃ j, (s.take j).all p = true ∧ (∀ m, b = some m → j ≤ m) ∧
      matchSeq rest (s.drop j) = some (caps, r) := by
  cases b with
  | none =>
    rw [matchSeq_star_none_eq] at h
    rcases hsg : starGo (fun s' => matchSeq rest s') s (runLen p s) with _ | ⟨j, caps', r'⟩
    · rw [hsg] at h
      exact absurd h (by simp)
    · rw [hsg] at h
      simp only [Option.some.injEq, Prod.mk.injEq] at h
      obtain ⟨h1, h2⟩ := h
      subst h1 h2
      obtain ⟨hj, hk⟩ := starGo_sound hsg
      exact ⟨j, take_runLen_all p s hj, fun m hm => Option.noConfusion hm, hk⟩
  | some m0 =>
    rw [matchSeq_star_some_eq] at h
    rcases hsg : starGo (fun s' => matchSeq rest s') s (min (runLen p s) m0)
      with _ | ⟨j, caps', r'⟩
    · rw [hsg] at h
      exact absurd h (by simp)
    · rw [hsg] at h
      simp only [Option.some.injEq, Prod.mk.injEq] at h
      obtain ⟨h1, h2⟩ := h
      subst h1 h2
      obtain ⟨hj, hk⟩ := starGo_sound hsg
      refine ⟨j, take_runLen_all p s (le_trans hj (min_le_left _ _)), ?_, hk⟩
      intro m hm
      injection hm with h2
      subst h2
      exact le_trans hj (min_le_right _ _)

/-- A capture-group star consumes its capture and the rest matches. -/
theorem matchSeq_grpStar_sound {p : Char → Bool} {rest : List RItem} {s : S}
    {caps : List S} {r : S}
    (h : matchSeq (RItem.grpStar p :: rest) s = some (caps, r)) :
    ∃ j caps', caps = s.take j :: caps' ∧ matchSeq rest (s.drop j) = some (caps', r) := by
  rw [matchSeq_grpStar_eq] at h
  rcases hsg : starGo (fun s' => matchSeq rest s') s (runLen p s) with _ | ⟨j, caps', r'⟩
  · rw [hsg] at h
    exact absurd h (by simp)
  · rw [hsg] at h
    simp only [Option.some.injEq, Prod.mk.injEq] at h
    obtain ⟨h1, h2⟩ := h
    subst h2
    exact ⟨j, caps', h1.symm, (starGo_sound hsg).2⟩

/-- A bounded-repeat group consumes exactly `n` characters. -/
theorem matchSeq_grpRep_sound {n : Nat} {p : Char → Bool} {rest : List RItem}
    {s : S} {caps : List S} {r : S}
    (h : matchSeq (RItem.grpRep n p :: rest) s = some (caps, r)) :
    ∃ caps', matchSeq rest (s.drop n) = some (caps', r) := by
  by_cases hc : (s.take n).length = n ∧ (s.take n).all p = true
  · rcases hk : matchSeq rest (s.drop n) with _ | ⟨caps', r'⟩
    · rw [show matchSeq (RItem.grpRep n p :: rest) s = none from by
        simp [matchSeq, hc.1, hc.2, hk]] at h
      exact absurd h (by simp)
    · rw [matchSeq_grpRep_of hc.1 hc.2 hk] at h
      simp only [Option.some.injEq, Prod.mk.injEq] at h
      exact ⟨caps', by rw [← h.2]⟩
  · rw [show matchSeq (RItem.grpRep n p :: rest) s = none from by
      simp only [matchSeq]
      rw [if_neg]
      exact fun hcc => hc ⟨hcc.1, hcc.2⟩] at h
    exact absurd h (by simp)

/-- The remainder a successful `matchSeq` returns is a suffix of the
input: matching only ever consumes characters from the front. -/
theorem matchSeq_suffix : ∀ (items : List RItem) (s : S) {caps : List S} {r : S},
    matchSeq items s = some (caps, r) → ∃ n, r = s.drop n := by
  intro items
  induction items with
  | nil =>
    intro s caps r h
    rw [matchSeq_nil_items] at h
    simp only [Option.some.injEq, Prod.mk.injEq] at h
    exact ⟨0, by rw [List.drop_zero]; exact h.2.symm⟩
  | cons it rest ih =>
    intro s caps r h
    cases it with
    | lit l =>
      obtain ⟨s', rfl, h2⟩ := matchSeq_lit_sound h
      obtain ⟨n, hn⟩ := ih _ h2
      refine ⟨l.length + n, ?_⟩
      rw [hn, drop_append_ge (Nat.le_add_right _ _)]
      congr 1
      omega
    | cls p =>
      obtain ⟨c, s', rfl, _, h2⟩ := matchSeq_cls_sound h
      obtain ⟨n, hn⟩ := ih _ h2
      exact ⟨n + 1, by rw [hn, List.drop_succ_cons]⟩
    | star b p =>
      obtain ⟨j, _, _, h2⟩ := matchSeq_star_sound h
      obtain ⟨n, hn⟩ := ih _ h2
      exact ⟨j + n, by rw [hn, List.drop_drop]⟩
    | grpStar p =>
      obtain ⟨j, caps', _, h2⟩ := matchSeq_grpStar_sound h
      obtain ⟨n, hn⟩ := ih _ h2
      exact ⟨j + n, by rw [hn, List.drop_drop]⟩
    | grpRep n0 p =>
      obtain ⟨caps', h2⟩ := matchSeq_grpRep_sound h
      obtain ⟨n, hn⟩ := ih _ h2
      exact ⟨n0 + n, by rw [hn, List.drop_drop]⟩

/-- Any suffix of `s0` equals the canonical suffix of its own length. -/
theorem drop_self_suffix {s0 r : S} (h : ∃ n, r = s0.drop n) :
    r = s0.drop (s0.length - r.length) := by
  obtain ⟨n, rfl⟩ := h
  by_cases hn : n ≤ s0.length
  · rw [List.length_drop]
    congr 1
    omega
  · rw [List.drop_eq_nil_of_le (le_of_not_le hn), List.length_nil, Nat.sub_zero,
      List.drop_length]

/-- The full match `findAtHere` reports really is the consumed prefix:
the input splits as full match plus remainder. -/
theorem findAtHere_decomp {re : List RItem} {s : S} {caps' : List S} {r' : S}
    (hm : matchSeq re s = some (caps', r')) :
    s = s.take (s.length - r'.length) ++ r' ∧
      matchSeq re (s.take (s.length - r'.length) ++ r') = some (caps', r') := by
  have hr : r' = s.drop (s.length - r'.length) :=
    drop_self_suffix (matchSeq_suffix re s hm)
  have he : s.take (s.length - r'.length) ++ r' = s := by
    conv_rhs => rw [← List.take_append_drop (s.length - r'.length) s]
    rw [← hr]
  exact ⟨he.symm, by rw [he]; exact hm⟩

/-- Decomposition of a successful unanchored search: the input splits
as skipped prefix, full match and remainder; the items match at the
match position; and the items match at no earlier position. -/
theorem findAux_sound {re : List RItem} : ∀ {s full : S} {caps : List S},
    findAux re s = some (full, caps) →
    ∃ u rem, s = u ++ full ++ rem ∧ matchSeq re (full ++ rem) = some (caps, rem) ∧
      ∀ q, q < u.length → matchSeq re (s.drop q) = none := by
  intro s
  induction s with
  | nil =>
    intro full caps h
    rcases hm : matchSeq re [] with _ | ⟨caps', r'⟩
    · rw [findAux_nil_none hm] at h
      exact absurd h (by simp)
    · rw [findAux_here hm] at h
      simp only [Option.some.injEq, Prod.mk.injEq] at h
      obtain ⟨h1, h2⟩ := h
      subst h2
      obtain ⟨hd1, hd2⟩ := findAtHere_decomp hm
      refine ⟨[], r', ?_, ?_, ?_⟩
      · rw [List.nil_append, ← h1]
        exact hd1
      · rw [← h1]
        exact hd2
      · intro q hq
        exact absurd hq (by simp)
  | cons c s' ih =>
    intro full caps h
    rcases hm : matchSeq re (c :: s') with _ | ⟨caps', r'⟩
    · rw [findAux_step hm] at h
      obtain ⟨u, rem, hdec, hmat, hleft⟩ := ih h
      refine ⟨c :: u, rem, ?_, hmat, ?_⟩
      · simp only [List.cons_append]
        rw [← hdec]
      · intro q hq
        cases q with
        | zero =>
          rw [List.drop_zero]
          exact hm
        | succ q' =>
          rw [List.drop_succ_cons]
          exact hleft q' (by simpa using hq)
    · rw [findAux_here hm] at h
      simp only [Option.some.injEq, Prod.mk.injEq] at h
      obtain ⟨h1, h2⟩ := h
      subst h2
      obtain ⟨hd1, hd2⟩ := findAtHere_decomp hm
      refine ⟨[], r', ?_, ?_, ?_⟩
      · rw [List.nil_append, ← h1]
        exact hd1
      · rw [← h1]
        exact hd2
      · intro q hq
        exact absurd hq (by simp)

/-- What a successful `AddrPortBridgeLine` match consumes is a token of
the addr:port shape. -/
theorem addrPort_matchSeq_sound {s : S} {caps : List S} {rem : S}
    (h : matchSeq addrPortBridgeLine s = some (caps, rem)) :
    ∃ m, s = m ++ rem ∧ isAddrPortToken m := by
  unfold addrPortBridgeLine at h
  obtain ⟨c0, s1, rfl, hc0, ha⟩ := matchSeq_cls_sound h
  obtain ⟨j1, ht1, _, hb1⟩ := matchSeq_star_sound ha
  obtain ⟨s2, hs2, hc⟩ := matchSeq_lit_sound hb1
  obtain ⟨d0, s3, hs3, hd0, hd⟩ := matchSeq_cls_sound hc
  obtain ⟨j2, ht2, hb, he⟩ := matchSeq_star_sound hd
  rw [matchSeq_nil_items] at he
  simp only [Option.some.injEq, Prod.mk.injEq] at he
  obtain ⟨hcaps, hrem⟩ := he
  subst hs3
  have hrem' : rem = s3.drop j2 := hrem.symm
  subst hrem'
  have hs2' : s1.drop j1 = ':' :: d0 :: s3 := hs2
  refine ⟨c0 :: (s1.take j1 ++ ':' :: d0 :: s3.take j2), ?_, ?_⟩
  · rw [List.cons_append]
    congr 1
    conv_lhs => rw [← List.take_append_drop j1 s1]
    rw [hs2']
    simp [List.append_assoc, List.cons_append, List.take_append_drop]
  · refine ⟨c0 :: s1.take j1, d0 :: s3.take j2, rfl, by simp, ?_, by simp, ?_, ?_⟩
    · simp [List.all_cons, hc0, ht1]
    · have h1 := List.length_take_le j2 s3
      have h2 := hb 4 rfl
      simp only [List.length_cons]
      omega
    · simp [List.all_cons, hd0, ht2]

/-! ## Completeness of the addr:port search (C6) -/

/-- If some number of class characters can be consumed so that the rest
matches, the star item succeeds. -/
theorem matchSeq_star_isSome {b : Option Nat} {p : Char → Bool}
    {rest : List RItem} {s : S} (j : Nat) (hj1 : j ≤ runLen p s)
    (hj2 : ∀ m, b = some m → j ≤ m)
    (hk : (matchSeq rest (s.drop j)).isSome = true) :
    (matchSeq (RItem.star b p :: rest) s).isSome = true := by
  cases b with
  | none =>
    rw [matchSeq_star_none_eq]
    have hsome := starGo_isSome_of_exists (k := fun s' => matchSeq rest s')
      (s := s) ⟨j, hj1, hk⟩
    rcases hsg : starGo (fun s' => matchSeq rest s') s (runLen p s)
      with _ | ⟨j', caps, r⟩
    · rw [hsg] at hsome
      simp at hsome
    · rfl
  | some m0 =>
    rw [matchSeq_star_some_eq]
    have hjm : j ≤ min (runLen p s) m0 := le_min hj1 (hj2 m0 rfl)
    have hsome := starGo_isSome_of_exists (k := fun s' => matchSeq rest s')
      (s := s) ⟨j, hjm, hk⟩
    rcases hsg : starGo (fun s' => matchSeq rest s') s (min (runLen p s) m0)
      with _ | ⟨j', caps, r⟩
    · rw [hsg] at hsome
      simp at hsome
    · rfl

/-- The `AddrPortBridgeLine` pattern matches at the start of any text
beginning with an addr:port token. -/
theorem matchSeq_addrPort_at0 {m v : S} (hm : isAddrPortToken m) :
    (matchSeq addrPortBridgeLine (m ++ v)).isSome = true := by
  obtain ⟨a, e, rfl, ha0, haa, he0, he5, hed⟩ := hm
  cases a with
  | nil => exact absurd rfl ha0
  | cons c0 a' =>
  cases e with
  | nil => exact absurd rfl he0
  | cons d0 e' =>
  rw [List.all_cons, Bool.and_eq_true] at haa
  rw [List.all_cons, Bool.and_eq_true] at hed
  have hsh : ((c0 :: a') ++ ':' :: (d0 :: e')) ++ v
      = c0 :: (a' ++ ':' :: d0 :: (e' ++ v)) := by
    simp [List.cons_append, List.append_assoc]
  rw [hsh]
  rw [show addrPortBridgeLine = RItem.cls addrc :: (RItem.star none addrc ::
      RItem.lit ((":").data) :: RItem.cls digitc :: RItem.star (some 4) digitc :: [])
    from rfl]
  rw [matchSeq_cls_pos haa.1]
  apply matchSeq_star_isSome a'.length
    (length_le_runLen_append _ haa.2) (fun m h => Option.noConfusion h)
  rw [List.drop_left]
  rw [show ((":").data) = ':' :: ([] : S) from rfl]
  rw [matchSeq_lit_single, matchSeq_cls_pos hed.1]
  apply matchSeq_star_isSome 0 (Nat.zero_le _) (fun m h => Nat.zero_le _)
  rw [List.drop_zero, matchSeq_nil_items]
  rfl

/-- A match anywhere makes the unanchored search succeed. -/
theorem findAux_isSome_of_here {re : List RItem} {s : S}
    (h : (matchSeq re s).isSome = true) : (findAux re s).isSome = true := by
  rcases hm : matchSeq re s with _ | ⟨caps, r⟩
  · rw [hm] at h
    simp at h
  · rw [findAux_here hm]
    rfl

/-- The unanchored addr:port search succeeds on any text containing an
addr:port token. -/
theorem findAux_addrPort_complete : ∀ (u : S) {m v : S}, isAddrPortToken m →
    (findAux addrPortBridgeLine (u ++ (m ++ v))).isSome = true := by
  intro u
  induction u with
  | nil =>
    intro m v hm
    rw [List.nil_append]
    exact findAux_isSome_of_here (matchSeq_addrPort_at0 hm)
  | cons c u' ih =>
    intro m v hm
    rw [List.cons_append]
    rcases hq : matchSeq addrPortBridgeLine (c :: (u' ++ (m ++ v)))
      with _ | ⟨caps, r⟩
    · rw [findAux_step hq]
      exact ih hm
    · rw [findAux_here hq]
      rfl

/-- C6 (counterexample): the claim as stated is false: no port-range
check is performed.  On the line `0.0.0.0:0` the code does not fail but
returns the token `0.0.0.0:0`, whose port `0` lies outside `1..65535`,
even though the line contains no token with a port in `1..65535`. -/
theorem c6_counterexample :
    bridgeLineToAddrPort (("0.0.0.0:0").data) = some (("0.0.0.0:0").data) ∧
    portOf (("0.0.0.0:0").data) = 0 :=
  ⟨by decide, by decide⟩

/-- C6 (amended): `bridgeLineToAddrPort` succeeds exactly when the line
contains a substring of the shape `[0-9a-z\[\]\.:]+:[0-9]{1,5}` (a
non-empty run of address characters, a colon, one to five digits), and
the returned value is such a token taken at the leftmost position where
the pattern matches; the numeric value of the port is never checked. -/
theorem c6_addrport_amended (s : S) :
    (bridgeLineToAddrPort s ≠ none ↔ hasAddrPortToken s) ∧
    ∀ r, bridgeLineToAddrPort s = some r → isAddrPortToken r ∧
      ∃ u v, s = u ++ r ++ v ∧
        ∀ w m z, s = w ++ m ++ z → isAddrPortToken m → u.length ≤ w.length := by
  have hmain : ∀ r, bridgeLineToAddrPort s = some r → isAddrPortToken r ∧
      ∃ u v, s = u ++ r ++ v ∧
        ∀ w m z, s = w ++ m ++ z → isAddrPortToken m → u.length ≤ w.length := by
    intro r hr
    unfold bridgeLineToAddrPort at hr
    rcases hfa : findAux addrPortBridgeLine s with _ | ⟨full, caps⟩
    · rw [hfa] at hr
      exact absurd hr (by simp)
    · rw [hfa] at hr
      simp only [Option.some.injEq] at hr
      subst hr
      obtain ⟨u, rem, hdec, hmat, hleft⟩ := findAux_sound hfa
      obtain ⟨m', hme, hmtok⟩ := addrPort_matchSeq_sound hmat
      have hfm : full = m' := List.append_cancel_right hme
      have hmtok' : isAddrPortToken full := by
        rw [hfm]
        exact hmtok
      refine ⟨hmtok', u, rem, hdec, ?_⟩
      intro w m z hswz hmtok2
      by_contra hlt
      push_neg at hlt
      have hnone := hleft w.length hlt
      have hdropw : s.drop w.length = m ++ z := by
        rw [hswz, List.append_assoc, List.drop_left]
      rw [hdropw] at hnone
      have hsome := matchSeq_addrPort_at0 (v := z) hmtok2
      rw [hnone] at hsome
      simp at hsome
  refine ⟨⟨?_, ?_⟩, hmain⟩
  · intro h
    rcases hr : bridgeLineToAddrPort s with _ | r
    · exact absurd hr h
    · obtain ⟨htok, u, v, hdec, _⟩ := hmain r hr
      exact ⟨u, r, v, hdec, htok⟩
  · rintro ⟨u, m, v, rfl, hmtok⟩
    have hsome := findAux_addrPort_complete u (v := v) hmtok
    rw [← List.append_assoc] at hsome
    unfold bridgeLineToAddrPort
    rcases hfa : findAux addrPortBridgeLine (u ++ m ++ v) with _ | ⟨full, caps⟩
    · rw [hfa] at hsome
      simp at hsome
    · simp

/-- C6 (witness): concrete instance of the amended claim: on the line
`obfs4 1.2.3.4:80 x` the returned value `1.2.3.4:80` is an addr:port
token, and the search also succeeds (the line has a token). -/
theorem c6_witness :
    isAddrPortToken (("1.2.3.4:80").data) ∧
    (bridgeLineToAddrPort (("obfs4 1.2.3.4:80 x").data) ≠ none) :=
  ⟨((c6_addrport_amended (("obfs4 1.2.3.4:80 x").data)).2 (("1.2.3.4:80").data)
      (by decide)).1,
    ((c6_addrport_amended (("obfs4 1.2.3.4:80 x").data)).1).mpr
      ⟨("obfs4 ").data, ("1.2.3.4:80").data, (" x").data, by decide,
        ("1.2.3.4").data, ("80").data, by decide, by decide, by decide,
        by decide, by decide, by decide⟩⟩
